import Mathlib

/-!
# Port table of the HAWX kernel (`kernel/port.c`)

A shallow embedding of the five operations of `kernel/port.c`
(`port_init`, `port_close`, `port_acquire`, `port_write`, `port_read`)
and the properties of the port table that follow from the code.

Conventions of the embedding

* The global `struct port ports[NPORT]` is passed explicitly: every operation
  takes the table and returns the new table (and its C return value).
* C `int` values are `Int`.  The loop guards keep `count`, `written` and
  `read` away from the ends of the `int` range, `head + 1` and `tail + 1`
  are wrapped to 32 bits (`wrap_int`), and `%` is the truncating remainder
  of C (`Int.tmod`).
* A C array or pointer to `char` is a function from the `int` offset to the
  byte stored there; a store writes that one offset.
* The array `char buffer[PORT_BUF_SIZE]` of a port owns the cells
  `0 .. PORT_BUF_SIZE - 1` only, and `port.c` indexes it with `tail` and
  `head` without a test.  `port_write_checked` and `port_read_checked` are
  the two functions with that bound: they give `none` when the call stores
  or loads outside the array, where C defines no behaviour (the layout of
  memory, and so what such an access hits, is not part of the model).
  `port_write` and `port_read` give the result of the call when every access
  is inside the array (`port_write_checked_eq`, `port_read_checked_eq`); that
  is so in every state the operations produce (`table_inv`, `run_table_inv`,
  `run_checked_of_inv`).
* Loops carry a bound on the number of iterations that their own guard never
  lets them reach: `NPORT` for the two `for` loops and `n` for the two `while`
  loops, whose counters grow by one each round (`port_write_loop_count`,
  `port_read_loop_count`, `port_acquire_scan_spec`, `port_init_loop_apply`).
-/

namespace Hawx

/-! ## Data model -/

/-- Values of the C type `char`; the port code copies them and never computes on them. -/
abbrev CChar := Int

/-- Modelled from the spec: the port type tags of `port.h` (`PORT_TYPE_FREE`,
`PORT_TYPE_KERNEL`, and the user tag), a header that is not among the sources.
The spec gives the type field as one of FREE, KERNEL, USER. -/
inductive PortType where
  | FREE
  | KERNEL
  | USER
  deriving DecidableEq, Repr

/-- Modelled from the spec: `struct port` of `port.h`, a header that is not among
the sources.  The fields are those the code of `port.c` reads and writes and the
spec lists: the `free` flag, the owning process id, the type tag, the ring
positions `head` and `tail`, the number `count` of stored bytes, and the byte
array `buffer` (the array owns the cells `0 .. PORT_BUF_SIZE - 1`). -/
structure port where
  free : Bool
  owner : Int
  type : PortType
  head : Int
  tail : Int
  count : Int
  buffer : Int → CChar

/-- The constants of `port.h`, a header that is not among the sources, taken as
parameters of every definition below: the table size, the buffer capacity and
the three reserved port numbers. -/
structure PortConfig where
  NPORT : Int
  PORT_BUF_SIZE : Int
  PORT_CONSOLEIN : Int
  PORT_CONSOLEOUT : Int
  PORT_DISKCMD : Int

/-- The global collection of ports, `struct port ports[NPORT]`, addressed by a C `int`. -/
abbrev Table := Int → port

/-- Two's complement wrap of an integer to the range of a 32 bit C `int`. -/
def wrap_int (x : Int) : Int := (x + 2147483648) % 4294967296 - 2147483648

/-! ## The operations of `port.c` -/

/-- The `for (i = 0; i < NPORT; i++)` loop of `port_init`; `fuel` bounds the
number of iterations. -/
def port_init_loop (cfg : PortConfig) : Nat → Int → Table → Table
  | 0, _, ports => ports
  | fuel + 1, i, ports =>
    if i < cfg.NPORT then
      port_init_loop cfg fuel (i + 1)
        (Function.update ports i
          { ports i with
            free := true, owner := 0, type := PortType.FREE,
            head := 0, tail := 0, count := 0 })
    else ports

/-- The function `port_init`: reset every port, then override the kernel ports. -/
def port_init (cfg : PortConfig) (ports : Table) : Table :=
  let ports := port_init_loop cfg cfg.NPORT.toNat 0 ports
  let ports := Function.update ports cfg.PORT_CONSOLEIN
    { ports cfg.PORT_CONSOLEIN with free := false, type := PortType.KERNEL }
  let ports := Function.update ports cfg.PORT_CONSOLEOUT
    { ports cfg.PORT_CONSOLEOUT with free := false, type := PortType.KERNEL }
  let ports := Function.update ports cfg.PORT_DISKCMD
    { ports cfg.PORT_DISKCMD with free := false, type := PortType.KERNEL }
  ports

/-- The function `port_close`. -/
def port_close (cfg : PortConfig) (ports : Table) (port : Int) : Table :=
  if port < 0 ∨ port ≥ cfg.NPORT then ports
  else if (ports port).free then ports
  else if (ports port).type = PortType.KERNEL then ports
  else
    Function.update ports port
      { ports port with
        head := 0, tail := 0, count := 0,
        free := true, owner := 0, type := PortType.FREE }

/-- The scanning loop `for (i = 0; i < NPORT; i++)` of `port_acquire`, with its
two `continue` tests and its `return i`; falling out of the loop returns `-1`.
`fuel` bounds the number of iterations. -/
def port_acquire_scan (cfg : PortConfig) (proc_id : Int) : Nat → Int → Table → Table × Int
  | 0, _, ports => (ports, -1)
  | fuel + 1, i, ports =>
    if i < cfg.NPORT then
      if !(ports i).free then port_acquire_scan cfg proc_id fuel (i + 1) ports
      else if (ports i).type ≠ PortType.FREE then port_acquire_scan cfg proc_id fuel (i + 1) ports
      else
        (Function.update ports i
          { ports i with free := false, owner := proc_id, head := 0, tail := 0, count := 0 }, i)
    else (ports, -1)

/-- The function `port_acquire`: the new table and the returned `int`. -/
def port_acquire (cfg : PortConfig) (ports : Table) (port : Int) (proc_id : Int) : Table × Int :=
  if port ≠ -1 then
    if port < 0 ∨ port ≥ cfg.NPORT then (ports, -1)
    else if (ports port).type = PortType.KERNEL then (ports, -1)
    else if !(ports port).free then (ports, -1)
    else
      (Function.update ports port
        { ports port with free := false, owner := proc_id, head := 0, tail := 0, count := 0 }, port)
  else port_acquire_scan cfg proc_id cfg.NPORT.toNat 0 ports

/-- The `while (written < n && ports[port].count < PORT_BUF_SIZE)` loop of
`port_write`.  Every access of the body is to the one record `ports[port]`,
which the loop carries together with `written`.  `fuel` bounds the number of
iterations.  The value is that of the C loop when every store is inside the
array, that is when `tail` is an index of the buffer at the first store;
`port_write_loop_checked` is the loop with the bound. -/
def port_write_loop (cfg : PortConfig) (buf : Int → CChar) (n : Int) :
    Nat → port → Int → port × Int
  | 0, p, written => (p, written)
  | fuel + 1, p, written =>
    if written < n ∧ p.count < cfg.PORT_BUF_SIZE then
      let p := { p with buffer := Function.update p.buffer p.tail (buf written) }
      let p := { p with tail := (wrap_int (p.tail + 1)).tmod cfg.PORT_BUF_SIZE }
      let p := { p with count := p.count + 1 }
      port_write_loop cfg buf n fuel p (written + 1)
    else (p, written)

/-- The function `port_write`: the new table and the returned `int`.  Each
iteration of the loop increments `written`, so `n` iterations are enough. -/
def port_write (cfg : PortConfig) (ports : Table) (port : Int) (buf : Int → CChar) (n : Int) :
    Table × Int :=
  if port < 0 ∨ port ≥ cfg.NPORT then (ports, -1)
  else if (ports port).free then (ports, -1)
  else
    let r := port_write_loop cfg buf n n.toNat (ports port) 0
    (Function.update ports port r.1, r.2)

/-- The `while (read < n && ports[port].count > 0)` loop of `port_read`.  The
loop carries the record `ports[port]`, the destination `buf` and `read`.
`fuel` bounds the number of iterations.  The value is that of the C loop when
every load is inside the array, that is when `head` is an index of the buffer
at the first load; `port_read_loop_checked` is the loop with the bound. -/
def port_read_loop (cfg : PortConfig) (n : Int) :
    Nat → port → (Int → CChar) → Int → port × (Int → CChar) × Int
  | 0, p, buf, read => (p, buf, read)
  | fuel + 1, p, buf, read =>
    if read < n ∧ p.count > 0 then
      let buf := Function.update buf read (p.buffer p.head)
      let p := { p with head := (wrap_int (p.head + 1)).tmod cfg.PORT_BUF_SIZE }
      let p := { p with count := p.count - 1 }
      port_read_loop cfg n fuel p buf (read + 1)
    else (p, buf, read)

/-- The function `port_read`: the new table, the destination after the call and
the returned `int`.  Each iteration increments `read`, so `n` iterations are
enough. -/
def port_read (cfg : PortConfig) (ports : Table) (port : Int) (buf : Int → CChar) (n : Int) :
    Table × (Int → CChar) × Int :=
  if port < 0 ∨ port ≥ cfg.NPORT then (ports, buf, -1)
  else if (ports port).free then (ports, buf, -1)
  else
    let r := port_read_loop cfg n n.toNat (ports port) buf 0
    (Function.update ports port r.1, r.2.1, r.2.2)

/-! ## The two transfers with the bounds of the buffer -/

/-- The loop of `port_write` with the bounds of `char buffer[PORT_BUF_SIZE]`:
the store `buffer[tail] = buf[written]` is inside the array when
`0 ≤ tail < PORT_BUF_SIZE`; a store outside it has no defined behaviour, and
the result is `none`.  Guard, body and bound are those of `port_write_loop`. -/
def port_write_loop_checked (cfg : PortConfig) (buf : Int → CChar) (n : Int) :
    Nat → port → Int → Option (port × Int)
  | 0, p, written => some (p, written)
  | fuel + 1, p, written =>
    if written < n ∧ p.count < cfg.PORT_BUF_SIZE then
      if 0 ≤ p.tail ∧ p.tail < cfg.PORT_BUF_SIZE then
        let p := { p with buffer := Function.update p.buffer p.tail (buf written) }
        let p := { p with tail := (wrap_int (p.tail + 1)).tmod cfg.PORT_BUF_SIZE }
        let p := { p with count := p.count + 1 }
        port_write_loop_checked cfg buf n fuel p (written + 1)
      else none
    else some (p, written)

/-- The function `port_write` with the bounds of the buffer: `none` when the
call stores outside the array, otherwise the new table and the returned
`int`. -/
def port_write_checked (cfg : PortConfig) (ports : Table) (port : Int) (buf : Int → CChar)
    (n : Int) : Option (Table × Int) :=
  if port < 0 ∨ port ≥ cfg.NPORT then some (ports, -1)
  else if (ports port).free then some (ports, -1)
  else
    match port_write_loop_checked cfg buf n n.toNat (ports port) 0 with
    | none => none
    | some r => some (Function.update ports port r.1, r.2)

/-- The loop of `port_read` with the bounds of `char buffer[PORT_BUF_SIZE]`:
the load `buf[read] = buffer[head]` is inside the array when
`0 ≤ head < PORT_BUF_SIZE`; a load outside it has no defined behaviour, and
the result is `none`.  Guard, body and bound are those of `port_read_loop`. -/
def port_read_loop_checked (cfg : PortConfig) (n : Int) :
    Nat → port → (Int → CChar) → Int → Option (port × (Int → CChar) × Int)
  | 0, p, buf, read => some (p, buf, read)
  | fuel + 1, p, buf, read =>
    if read < n ∧ p.count > 0 then
      if 0 ≤ p.head ∧ p.head < cfg.PORT_BUF_SIZE then
        let buf := Function.update buf read (p.buffer p.head)
        let p := { p with head := (wrap_int (p.head + 1)).tmod cfg.PORT_BUF_SIZE }
        let p := { p with count := p.count - 1 }
        port_read_loop_checked cfg n fuel p buf (read + 1)
      else none
    else some (p, buf, read)

/-- The function `port_read` with the bounds of the buffer: `none` when the
call loads outside the array, otherwise the new table, the destination after
the call and the returned `int`. -/
def port_read_checked (cfg : PortConfig) (ports : Table) (port : Int) (buf : Int → CChar)
    (n : Int) : Option (Table × (Int → CChar) × Int) :=
  if port < 0 ∨ port ≥ cfg.NPORT then some (ports, buf, -1)
  else if (ports port).free then some (ports, buf, -1)
  else
    match port_read_loop_checked cfg n n.toNat (ports port) buf 0 with
    | none => none
    | some r => some (Function.update ports port r.1, r.2.1, r.2.2)

/-! ## Sequences of calls -/

/-- One call of an operation of `port.c` with its arguments. -/
inductive Op where
  | init
  | acquire (port : Int) (proc_id : Int)
  | close (port : Int)
  | write (port : Int) (buf : Int → CChar) (n : Int)
  | read (port : Int) (buf : Int → CChar) (n : Int)

/-- The table after one call. -/
def step (cfg : PortConfig) (ports : Table) : Op → Table
  | Op.init => port_init cfg ports
  | Op.acquire port proc_id => (port_acquire cfg ports port proc_id).1
  | Op.close port => port_close cfg ports port
  | Op.write port buf n => (port_write cfg ports port buf n).1
  | Op.read port buf n => (port_read cfg ports port buf n).1

/-- The table after a sequence of calls, first call first. -/
def run (cfg : PortConfig) (ports : Table) (ops : List Op) : Table :=
  ops.foldl (step cfg) ports

/-- The table after one call, with the bounds of the buffers: `none` when the
call stores or loads outside a buffer. -/
def step_checked (cfg : PortConfig) (ports : Table) : Op → Option Table
  | Op.init => some (port_init cfg ports)
  | Op.acquire port proc_id => some (port_acquire cfg ports port proc_id).1
  | Op.close port => some (port_close cfg ports port)
  | Op.write port buf n => (port_write_checked cfg ports port buf n).map Prod.fst
  | Op.read port buf n => (port_read_checked cfg ports port buf n).map Prod.fst

/-- The table after a sequence of calls, first call first, with the bounds of
the buffers: `none` when one of the calls stores or loads outside a buffer. -/
def run_checked (cfg : PortConfig) : Table → List Op → Option Table
  | ports, [] => some ports
  | ports, op :: ops =>
    match step_checked cfg ports op with
    | none => none
    | some t => run_checked cfg t ops

/-! ## Notions of the specification -/

/-- The ring-buffer invariant of one port. -/
def ring_inv (cfg : PortConfig) (p : port) : Prop :=
  0 ≤ p.count ∧ p.count ≤ cfg.PORT_BUF_SIZE ∧
  0 ≤ p.head ∧ p.head < cfg.PORT_BUF_SIZE ∧
  0 ≤ p.tail ∧ p.tail < cfg.PORT_BUF_SIZE ∧
  p.tail = (p.head + p.count) % cfg.PORT_BUF_SIZE

instance (cfg : PortConfig) (p : port) : Decidable (ring_inv cfg p) := by
  unfold ring_inv
  infer_instance

/-- The logical contents of a port: the `count` bytes
`buffer[(head + i) mod PORT_BUF_SIZE]`, `i < count`, oldest first. -/
def contents (cfg : PortConfig) (p : port) : List CChar :=
  (List.range p.count.toNat).map (fun (i : Nat) => p.buffer ((p.head + (i : Int)) % cfg.PORT_BUF_SIZE))

/-- The bytes `buf[start], ..., buf[start + k - 1]` of a C buffer. -/
def bytes_from (buf : Int → CChar) (start : Int) (k : Int) : List CChar :=
  (List.range k.toNat).map (fun (i : Nat) => buf (start + (i : Int)))

/-- One call on a fixed port: `port_write` of `n` bytes of `buf`, or `port_read`
of up to `n` bytes into the destination `buf`. -/
inductive Call where
  | write (buf : Int → CChar) (n : Int)
  | read (buf : Int → CChar) (n : Int)

/-- The record of a run of calls on one port: the table, the bytes delivered
into the read destinations so far and the bytes accepted by the writes so far. -/
structure Transcript where
  ports : Table
  delivered : List CChar
  accepted : List CChar

/-- One call on port `port`: a write adds the first `ret` bytes of its data to
the accepted bytes, a read adds the first `ret` bytes of its destination to the
delivered bytes, `ret` being the value the call returns. -/
def call_step (cfg : PortConfig) (port : Int) (s : Transcript) : Call → Transcript
  | Call.write buf n =>
    { ports := (port_write cfg s.ports port buf n).1,
      delivered := s.delivered,
      accepted := s.accepted ++ bytes_from buf 0 (port_write cfg s.ports port buf n).2 }
  | Call.read buf n =>
    { ports := (port_read cfg s.ports port buf n).1,
      delivered := s.delivered ++
        bytes_from (port_read cfg s.ports port buf n).2.1 0 (port_read cfg s.ports port buf n).2.2,
      accepted := s.accepted }

/-- A sequence of calls on port `port`, first call first, from table `ports`. -/
def run_calls (cfg : PortConfig) (port : Int) (ports : Table) (calls : List Call) : Transcript :=
  calls.foldl (call_step cfg port) { ports := ports, delivered := [], accepted := [] }

/-- Every port of the table satisfies the ring-buffer invariant. -/
def table_inv (cfg : PortConfig) (ports : Table) : Prop :=
  ∀ i : Int, 0 ≤ i → i < cfg.NPORT → ring_inv cfg (ports i)

/-- The calls that may follow the acquisition of port `p` while `p` stays
allocated: any `port_acquire`, `port_write` and `port_read`, and `port_close`
of a port other than `p`; neither `port_close` of `p` nor `port_init`. -/
def keeps_open (p : Int) : Op → Prop
  | Op.init => False
  | Op.acquire _ _ => True
  | Op.close q => q ≠ p
  | Op.write _ _ _ => True
  | Op.read _ _ _ => True

/-! ## Sample data -/

/-- A configuration with four ports of capacity five (the capacity of the
walkthrough at the head of `port.c`) and the reserved numbers 0, 1, 2. -/
def cfg5 : PortConfig :=
  { NPORT := 4, PORT_BUF_SIZE := 5, PORT_CONSOLEIN := 0, PORT_CONSOLEOUT := 1, PORT_DISKCMD := 2 }

/-- An unallocated, empty port. -/
def blank_port : port :=
  { free := true, owner := 0, type := PortType.FREE, head := 0, tail := 0, count := 0,
    buffer := fun _ => 0 }

/-- A table of unallocated, empty ports. -/
def blank_table : Table := fun _ => blank_port

/-- An open port holding the two bytes 7, 9 at the cells 4 and 0 of its buffer. -/
def wrapped_port : port :=
  { free := false, owner := 6, type := PortType.FREE, head := 4, tail := 1, count := 2,
    buffer := fun i => if i = 4 then 7 else if i = 0 then 9 else 0 }

/-- The blank table with port 3 open and holding two bytes across the wrap. -/
def sample_table : Table := Function.update blank_table 3 wrapped_port

/-- The data 5, 7, 2, 12, 3 of the walkthrough at the head of `port.c`. -/
def sample_data : Int → CChar := fun i =>
  if i = 0 then 5 else if i = 1 then 7 else if i = 2 then 2 else if i = 3 then 12
  else if i = 4 then 3 else 0

/-- An open, empty port whose `tail` is `INT_MAX`, far outside its buffer. -/
def stray_tail_port : port :=
  { free := false, owner := 6, type := PortType.FREE, head := 0, tail := 2147483647, count := 0,
    buffer := fun _ => 0 }

/-- The blank table with port 3 open and its `tail` outside the buffer. -/
def stray_tail_table : Table := Function.update blank_table 3 stray_tail_port

/-- An open port holding one byte whose `head` is `INT_MAX`, far outside its
buffer. -/
def stray_head_port : port :=
  { free := false, owner := 6, type := PortType.FREE, head := 2147483647, tail := 0, count := 1,
    buffer := fun _ => 0 }

/-- The blank table with port 3 open and its `head` outside the buffer. -/
def stray_head_table : Table := Function.update blank_table 3 stray_head_port

/-- An open, empty port whose `tail` is 48, past the five cells of its buffer. -/
def crossing_port : port :=
  { free := false, owner := 0, type := PortType.KERNEL, head := 0, tail := 48, count := 0,
    buffer := fun _ => 0 }

/-- The blank table with port 2 open and its `tail` past the end of the buffer. -/
def crossing_table : Table := Function.update blank_table 2 crossing_port

/-- The addressed port is outside the table or free: the case in which
`port_write` and `port_read` return -1. -/
def closed_at (cfg : PortConfig) (ports : Table) (port : Int) : Prop :=
  (port < 0 ∨ port ≥ cfg.NPORT) ∨ (ports port).free = true

instance (cfg : PortConfig) (ports : Table) (port : Int) : Decidable (closed_at cfg ports port) := by
  unfold closed_at
  infer_instance

/-- The positions of a port are indices of its buffer. -/
def positions_ok (cfg : PortConfig) (p : port) : Prop :=
  (0 ≤ p.tail ∧ p.tail < cfg.PORT_BUF_SIZE) ∧ (0 ≤ p.head ∧ p.head < cfg.PORT_BUF_SIZE)

instance (cfg : PortConfig) (p : port) : Decidable (positions_ok cfg p) := by
  unfold positions_ok
  infer_instance

/-! ## Auxiliary definitions -/

/-- One iteration of the body of the write loop: store the byte at `tail`,
advance `tail`, increment `count`. -/
def write_byte (cfg : PortConfig) (p : port) (x : CChar) : port :=
  { p with
    buffer := Function.update p.buffer p.tail x,
    tail := (wrap_int (p.tail + 1)).tmod cfg.PORT_BUF_SIZE,
    count := p.count + 1 }

/-- One iteration of the body of the read loop on the port record: advance
`head`, decrement `count` (the byte at `head` goes to the destination). -/
def read_byte (cfg : PortConfig) (p : port) : port :=
  { p with
    head := (wrap_int (p.head + 1)).tmod cfg.PORT_BUF_SIZE,
    count := p.count - 1 }

/-- The state a run of calls on port `p` keeps: the port is open, satisfies the
ring-buffer invariant, and the delivered bytes followed by the logical
contents are the initial contents `Q` followed by the accepted bytes. -/
def fifo_state (cfg : PortConfig) (p : Int) (Q : List CChar) (s : Transcript) : Prop :=
  (s.ports p).free = false ∧ ring_inv cfg (s.ports p) ∧
  s.delivered ++ contents cfg (s.ports p) = Q ++ s.accepted

/-- The record the loop of `port_init` stores at each index. -/
def reset_port (p : port) : port :=
  { p with free := true, owner := 0, type := PortType.FREE, head := 0, tail := 0, count := 0 }

/-- The record `port_init` leaves at a kernel port. -/
def kernel_port (p : port) : port :=
  { p with free := false, type := PortType.KERNEL }

/-- The record `port_acquire` stores at the port it allocates. -/
def acquired_port (p : port) (proc_id : Int) : port :=
  { p with free := false, owner := proc_id, head := 0, tail := 0, count := 0 }

/-- A port the scan of `port_acquire` stops at: free, with type FREE. -/
def available (p : port) : Prop := p.free = true ∧ p.type = PortType.FREE

instance (p : port) : Decidable (available p) := by
  unfold available
  infer_instance

/-- The record `port_close` stores at the port it releases. -/
def closed_port (p : port) : port :=
  { p with head := 0, tail := 0, count := 0, free := true, owner := 0, type := PortType.FREE }

/-- A run of five calls from the table `port_init` leaves: allocate a port
(the scan gives port 3), write the five sample bytes, read two, close, and
initialise again. -/
def sample_ops : List Op :=
  [Op.acquire (-1) 7, Op.write 3 sample_data 5, Op.read 3 (fun _ => 0) 2, Op.close 3, Op.init]

/-- The three reserved port numbers. -/
def reserved (cfg : PortConfig) (j : Int) : Prop :=
  j = cfg.PORT_CONSOLEIN ∨ j = cfg.PORT_CONSOLEOUT ∨ j = cfg.PORT_DISKCMD

instance (cfg : PortConfig) (j : Int) : Decidable (reserved cfg j) := by
  unfold reserved
  infer_instance

/-- The reserved port numbers are indices of the table. -/
def reserved_in_range (cfg : PortConfig) : Prop :=
  (0 ≤ cfg.PORT_CONSOLEIN ∧ cfg.PORT_CONSOLEIN < cfg.NPORT) ∧
  (0 ≤ cfg.PORT_CONSOLEOUT ∧ cfg.PORT_CONSOLEOUT < cfg.NPORT) ∧
  (0 ≤ cfg.PORT_DISKCMD ∧ cfg.PORT_DISKCMD < cfg.NPORT)

instance (cfg : PortConfig) : Decidable (reserved_in_range cfg) := by
  unfold reserved_in_range
  infer_instance

/-- The reserved ports are allocated with type KERNEL, and every other port of
the table has type FREE. -/
def kernel_inv (cfg : PortConfig) (ports : Table) : Prop :=
  ∀ j : Int,
    (reserved cfg j → (ports j).free = false ∧ (ports j).type = PortType.KERNEL) ∧
    (0 ≤ j → j < cfg.NPORT → ¬ reserved cfg j → (ports j).type = PortType.FREE)

/-- Port `p` is allocated and its owner is `owner`. -/
def held_by (ports : Table) (p : Int) (owner : Int) : Prop :=
  (ports p).free = false ∧ (ports p).owner = owner

instance (ports : Table) (p : Int) (owner : Int) : Decidable (held_by ports p owner) := by
  unfold held_by
  infer_instance

/-- Four calls that leave port 3 allocated: a write, a read, a second request
for port 3 and the closing of another port. -/
def sample_traffic : List Op :=
  [Op.write 3 sample_data 5, Op.read 3 (fun _ => 0) 2, Op.acquire 3 9, Op.close 2]

/-- Every free port of the table is empty and reset: `count`, `head`, `tail`
and the owner are 0 and the type is FREE. -/
def free_inv (cfg : PortConfig) (ports : Table) : Prop :=
  ∀ j : Int, 0 ≤ j → j < cfg.NPORT → (ports j).free = true →
    (ports j).count = 0 ∧ (ports j).head = 0 ∧ (ports j).tail = 0 ∧
    (ports j).owner = 0 ∧ (ports j).type = PortType.FREE

/-- Traffic on port `p`: a `port_write` or a `port_read` on `p`. -/
def traffic_on (p : Int) : Op → Prop
  | Op.init => False
  | Op.acquire _ _ => False
  | Op.close _ => False
  | Op.write q _ _ => q = p
  | Op.read q _ _ => q = p

/-! ## Arithmetic of the ring positions -/

theorem wrap_int_of_range (x : Int) (h0 : -2147483648 ≤ x) (h1 : x < 2147483648) :
    wrap_int x = x := by
  unfold wrap_int
  omega

theorem emod_small (a S : Int) (h0 : 0 ≤ a) (h1 : a < 2 * S) :
    a % S = if a < S then a else a - S := by
  split_ifs with h
  · exact Int.emod_eq_of_lt h0 h
  · have e : a = (a - S) + 1 * S := by ring
    rw [e, Int.add_mul_emod_self]
    have e2 : a - S + 1 * S - S = a - S := by ring
    rw [e2]
    exact Int.emod_eq_of_lt (by omega) (by omega)

/-- Advancing a position that is in range: the C expression `(t + 1) % PORT_BUF_SIZE`. -/
theorem advance_eq (S t : Int) (hS : S < 2147483648) (h0 : 0 ≤ t) (h1 : t < S) :
    (wrap_int (t + 1)).tmod S = if t + 1 < S then t + 1 else 0 := by
  rw [wrap_int_of_range _ (by omega) (by omega), Int.tmod_eq_emod (by omega) (by omega),
    emod_small _ _ (by omega) (by omega)]
  split_ifs <;> omega

theorem bytes_from_zero (buf : Int → CChar) (s k : Int) (hk : k ≤ 0) : bytes_from buf s k = [] := by
  have : k.toNat = 0 := by omega
  simp [bytes_from, this]

theorem bytes_from_cons (buf : Int → CChar) (s k : Int) (hk : 0 < k) :
    bytes_from buf s k = buf s :: bytes_from buf (s + 1) (k - 1) := by
  obtain ⟨m, rfl⟩ : ∃ m : Nat, k = (m : Int) + 1 := ⟨(k - 1).toNat, by omega⟩
  have e1 : ((m : Int) + 1).toNat = m + 1 := by omega
  have e2 : ((m : Int) + 1 - 1).toNat = m := by omega
  simp only [bytes_from, e1, e2, List.range_succ_eq_map, List.map_cons, List.map_map]
  congr 1
  · simp
  · apply List.map_congr_left
    intro i _
    simp only [Function.comp, Nat.succ_eq_add_one, Nat.cast_add, Nat.cast_one]
    congr 1
    ring

theorem bytes_from_length (buf : Int → CChar) (s k : Int) : (bytes_from buf s k).length = k.toNat := by
  simp [bytes_from]

theorem contents_length (cfg : PortConfig) (p : port) : (contents cfg p).length = p.count.toNat := by
  simp [contents]

/-! ## The write loop -/

theorem port_write_loop_succ (cfg : PortConfig) (buf : Int → CChar) (n : Int) (fuel : Nat)
    (p : port) (written : Int) :
    port_write_loop cfg buf n (fuel + 1) p written =
      if written < n ∧ p.count < cfg.PORT_BUF_SIZE then
        port_write_loop cfg buf n fuel (write_byte cfg p (buf written)) (written + 1)
      else (p, written) := rfl

/-- When the guard of the write loop is false at entry the loop does nothing. -/
theorem port_write_loop_stop (cfg : PortConfig) (buf : Int → CChar) (n : Int) (fuel : Nat)
    (p : port) (written : Int) (h : ¬ (written < n ∧ p.count < cfg.PORT_BUF_SIZE)) :
    port_write_loop cfg buf n fuel p written = (p, written) := by
  cases fuel with
  | zero => rfl
  | succ fuel => rw [port_write_loop_succ, if_neg h]

/-- The number of iterations of the write loop, in any state of the port: the
loop runs until `n` bytes are written or the count reaches the capacity.  The
fields other than `buffer`, `tail` and `count` are not touched. -/
theorem port_write_loop_count (cfg : PortConfig) (buf : Int → CChar) (n : Int) :
    ∀ (fuel : Nat) (p : port) (written : Int), (n - written).toNat ≤ fuel →
      (port_write_loop cfg buf n fuel p written).2 - written =
          min (max (n - written) 0) (max (cfg.PORT_BUF_SIZE - p.count) 0) ∧
      (port_write_loop cfg buf n fuel p written).1.count =
          p.count + ((port_write_loop cfg buf n fuel p written).2 - written) ∧
      (port_write_loop cfg buf n fuel p written).1.free = p.free ∧
      (port_write_loop cfg buf n fuel p written).1.owner = p.owner ∧
      (port_write_loop cfg buf n fuel p written).1.type = p.type ∧
      (port_write_loop cfg buf n fuel p written).1.head = p.head := by
  intro fuel
  induction fuel with
  | zero =>
    intro p written hf
    refine ⟨?_, ?_, rfl, rfl, rfl, rfl⟩ <;> simp only [port_write_loop] <;> omega
  | succ fuel ih =>
    intro p written hf
    rw [port_write_loop_succ]
    split_ifs with h
    · obtain ⟨h1, h2, h3, h4, h5, h6⟩ := ih (write_byte cfg p (buf written)) (written + 1) (by omega)
      have hc : (write_byte cfg p (buf written)).count = p.count + 1 := rfl
      rw [hc] at h1 h2
      refine ⟨?_, ?_, h3, h4, h5, h6⟩ <;> omega
    · refine ⟨?_, ?_, rfl, rfl, rfl, rfl⟩ <;> simp only <;> omega

/-- One iteration of the write loop on a port that satisfies the ring-buffer
invariant and is not full keeps the invariant and appends the byte to the
logical contents. -/
theorem write_byte_ring (cfg : PortConfig) (p : port) (x : CChar)
    (hS : cfg.PORT_BUF_SIZE < 2147483648) (hinv : ring_inv cfg p)
    (hc : p.count < cfg.PORT_BUF_SIZE) :
    ring_inv cfg (write_byte cfg p x) ∧
    contents cfg (write_byte cfg p x) = contents cfg p ++ [x] := by
  obtain ⟨c0, c1, h0, h1, t0, t1, ht⟩ := hinv
  have hadv := advance_eq cfg.PORT_BUF_SIZE p.tail hS t0 t1
  have hmod := emod_small (p.head + p.count) cfg.PORT_BUF_SIZE (by omega) (by omega)
  constructor
  · have hmod2 := emod_small (p.head + (p.count + 1)) cfg.PORT_BUF_SIZE (by omega) (by omega)
    refine ⟨?_, ?_, h0, h1, ?_, ?_, ?_⟩ <;> simp only [write_byte]
    · omega
    · omega
    · rw [hadv]; split_ifs <;> omega
    · rw [hadv]; split_ifs <;> omega
    · rw [hadv, hmod2]
      rw [hmod] at ht
      split_ifs at ht ⊢ <;> omega
  · obtain ⟨m, hm⟩ : ∃ m : Nat, p.count = (m : Int) := ⟨p.count.toNat, by omega⟩
    have e1 : (p.count + 1).toNat = m + 1 := by omega
    have e2 : p.count.toNat = m := by omega
    simp only [contents, write_byte, e1, e2, List.range_succ, List.map_append, List.map_cons,
      List.map_nil]
    congr 1
    · apply List.map_congr_left
      intro i hi
      have hi2 : i < m := List.mem_range.mp hi
      have hne : (p.head + (i : Int)) % cfg.PORT_BUF_SIZE ≠ p.tail := by
        rw [ht, hmod, emod_small (p.head + (i : Int)) cfg.PORT_BUF_SIZE (by omega) (by omega)]
        split_ifs <;> omega
      exact Function.update_noteq hne _ _
    · rw [← hm, ← ht]
      simp

/-- The write loop on a port that satisfies the ring-buffer invariant: the
invariant is kept, the bytes taken from `buf` are appended to the logical
contents in order, and `tail` advances by their number. -/
theorem port_write_loop_ring (cfg : PortConfig) (buf : Int → CChar) (n : Int)
    (hS : cfg.PORT_BUF_SIZE < 2147483648) :
    ∀ (fuel : Nat) (p : port) (written : Int), ring_inv cfg p →
      ring_inv cfg (port_write_loop cfg buf n fuel p written).1 ∧
      written ≤ (port_write_loop cfg buf n fuel p written).2 ∧
      contents cfg (port_write_loop cfg buf n fuel p written).1 =
        contents cfg p ++
          bytes_from buf written ((port_write_loop cfg buf n fuel p written).2 - written) := by
  intro fuel
  induction fuel with
  | zero =>
    intro p written hinv
    simp only [port_write_loop]
    exact ⟨hinv, le_refl _, by simp [bytes_from_zero]⟩
  | succ fuel ih =>
    intro p written hinv
    rw [port_write_loop_succ]
    split_ifs with h
    · obtain ⟨hr, hcont⟩ := write_byte_ring cfg p (buf written) hS hinv h.2
      obtain ⟨i1, i2, i3⟩ := ih (write_byte cfg p (buf written)) (written + 1) hr
      refine ⟨i1, by omega, ?_⟩
      rw [i3, hcont, List.append_assoc]
      congr 1
      rw [bytes_from_cons buf written _ (by omega)]
      simp only [List.singleton_append]
      congr 2
      ring
    · exact ⟨hinv, le_refl _, by simp [bytes_from_zero]⟩

/-! ## The read loop -/

theorem port_read_loop_succ (cfg : PortConfig) (n : Int) (fuel : Nat)
    (p : port) (buf : Int → CChar) (read : Int) :
    port_read_loop cfg n (fuel + 1) p buf read =
      if read < n ∧ p.count > 0 then
        port_read_loop cfg n fuel (read_byte cfg p)
          (Function.update buf read (p.buffer p.head)) (read + 1)
      else (p, buf, read) := rfl

/-- When the guard of the read loop is false at entry the loop does nothing. -/
theorem port_read_loop_stop (cfg : PortConfig) (n : Int) (fuel : Nat)
    (p : port) (buf : Int → CChar) (read : Int) (h : ¬ (read < n ∧ p.count > 0)) :
    port_read_loop cfg n fuel p buf read = (p, buf, read) := by
  cases fuel with
  | zero => rfl
  | succ fuel => rw [port_read_loop_succ, if_neg h]

/-- The number of iterations of the read loop, in any state of the port: the
loop runs until `n` bytes are read or the count reaches zero.  The fields
other than `head` and `count` are not touched. -/
theorem port_read_loop_count (cfg : PortConfig) (n : Int) :
    ∀ (fuel : Nat) (p : port) (buf : Int → CChar) (read : Int), (n - read).toNat ≤ fuel →
      (port_read_loop cfg n fuel p buf read).2.2 - read =
          min (max (n - read) 0) (max p.count 0) ∧
      (port_read_loop cfg n fuel p buf read).1.count =
          p.count - ((port_read_loop cfg n fuel p buf read).2.2 - read) ∧
      (port_read_loop cfg n fuel p buf read).1.free = p.free ∧
      (port_read_loop cfg n fuel p buf read).1.owner = p.owner ∧
      (port_read_loop cfg n fuel p buf read).1.type = p.type ∧
      (port_read_loop cfg n fuel p buf read).1.tail = p.tail ∧
      (port_read_loop cfg n fuel p buf read).1.buffer = p.buffer := by
  intro fuel
  induction fuel with
  | zero =>
    intro p buf read hf
    refine ⟨?_, ?_, rfl, rfl, rfl, rfl, rfl⟩ <;> simp only [port_read_loop] <;> omega
  | succ fuel ih =>
    intro p buf read hf
    rw [port_read_loop_succ]
    split_ifs with h
    · obtain ⟨h1, h2, h3, h4, h5, h6, h7⟩ :=
        ih (read_byte cfg p) (Function.update buf read (p.buffer p.head)) (read + 1) (by omega)
      have hc : (read_byte cfg p).count = p.count - 1 := rfl
      rw [hc] at h1 h2
      refine ⟨?_, ?_, h3, h4, h5, h6, h7⟩ <;> omega
    · refine ⟨?_, ?_, rfl, rfl, rfl, rfl, rfl⟩ <;> simp only <;> omega

/-- The read loop stores only at offsets from `read` on: the destination below
the starting offset is left as it was. -/
theorem port_read_loop_frame (cfg : PortConfig) (n : Int) :
    ∀ (fuel : Nat) (p : port) (buf : Int → CChar) (read : Int) (j : Int), j < read →
      (port_read_loop cfg n fuel p buf read).2.1 j = buf j := by
  intro fuel
  induction fuel with
  | zero => intro p buf read j _; rfl
  | succ fuel ih =>
    intro p buf read j hj
    rw [port_read_loop_succ]
    split_ifs with h
    · rw [ih _ _ _ j (by omega)]
      exact Function.update_noteq (by omega) _ _
    · rfl

/-- One iteration of the read loop on a port that satisfies the ring-buffer
invariant and is not empty keeps the invariant and removes the oldest byte,
the one at `head`, from the logical contents. -/
theorem read_byte_ring (cfg : PortConfig) (p : port)
    (hS : cfg.PORT_BUF_SIZE < 2147483648) (hinv : ring_inv cfg p) (hc : 0 < p.count) :
    ring_inv cfg (read_byte cfg p) ∧
    contents cfg p = p.buffer p.head :: contents cfg (read_byte cfg p) := by
  obtain ⟨c0, c1, h0, h1, t0, t1, ht⟩ := hinv
  have hadv := advance_eq cfg.PORT_BUF_SIZE p.head hS h0 h1
  have hmod := emod_small (p.head + p.count) cfg.PORT_BUF_SIZE (by omega) (by omega)
  constructor
  · refine ⟨?_, ?_, ?_, ?_, t0, t1, ?_⟩ <;> simp only [read_byte]
    · omega
    · omega
    · rw [hadv]; split_ifs <;> omega
    · rw [hadv]; split_ifs <;> omega
    · rw [hadv]
      rw [hmod] at ht
      by_cases hh : p.head + 1 < cfg.PORT_BUF_SIZE
      · rw [if_pos hh,
          emod_small (p.head + 1 + (p.count - 1)) cfg.PORT_BUF_SIZE (by omega) (by omega)]
        split_ifs at ht ⊢ <;> omega
      · rw [if_neg hh, emod_small (0 + (p.count - 1)) cfg.PORT_BUF_SIZE (by omega) (by omega)]
        split_ifs at ht ⊢ <;> omega
  · obtain ⟨m, hm⟩ : ∃ m : Nat, p.count = (m : Int) + 1 := ⟨(p.count - 1).toNat, by omega⟩
    have e1 : p.count.toNat = m + 1 := by omega
    have e2 : (p.count - 1).toNat = m := by omega
    simp only [contents, read_byte, e1, e2, List.range_succ_eq_map, List.map_cons, List.map_map]
    congr 1
    · congr 1
      simp only [Nat.cast_zero, add_zero]
      exact Int.emod_eq_of_lt h0 h1
    · apply List.map_congr_left
      intro i hi
      have hi2 : i < m := List.mem_range.mp hi
      simp only [Function.comp, Nat.succ_eq_add_one, Nat.cast_add, Nat.cast_one]
      congr 1
      rw [hadv, emod_small (p.head + ((i : Int) + 1)) cfg.PORT_BUF_SIZE (by omega) (by omega)]
      by_cases hh : p.head + 1 < cfg.PORT_BUF_SIZE
      · rw [if_pos hh, emod_small (p.head + 1 + (i : Int)) cfg.PORT_BUF_SIZE (by omega) (by omega)]
        split_ifs <;> omega
      · rw [if_neg hh, emod_small (0 + (i : Int)) cfg.PORT_BUF_SIZE (by omega) (by omega)]
        split_ifs <;> omega

/-- The read loop on a port that satisfies the ring-buffer invariant: the
invariant is kept, and the logical contents before the loop are the bytes
stored into the destination, in order, followed by the contents left. -/
theorem port_read_loop_ring (cfg : PortConfig) (n : Int)
    (hS : cfg.PORT_BUF_SIZE < 2147483648) :
    ∀ (fuel : Nat) (p : port) (buf : Int → CChar) (read : Int), ring_inv cfg p →
      ring_inv cfg (port_read_loop cfg n fuel p buf read).1 ∧
      read ≤ (port_read_loop cfg n fuel p buf read).2.2 ∧
      contents cfg p =
        bytes_from (port_read_loop cfg n fuel p buf read).2.1 read
            ((port_read_loop cfg n fuel p buf read).2.2 - read) ++
          contents cfg (port_read_loop cfg n fuel p buf read).1 := by
  intro fuel
  induction fuel with
  | zero =>
    intro p buf read hinv
    simp only [port_read_loop]
    exact ⟨hinv, le_refl _, by simp [bytes_from_zero]⟩
  | succ fuel ih =>
    intro p buf read hinv
    rw [port_read_loop_succ]
    split_ifs with h
    · obtain ⟨hr, hcont⟩ := read_byte_ring cfg p hS hinv h.2
      obtain ⟨i1, i2, i3⟩ :=
        ih (read_byte cfg p) (Function.update buf read (p.buffer p.head)) (read + 1) hr
      refine ⟨i1, by omega, ?_⟩
      rw [bytes_from_cons _ read _ (by omega),
        port_read_loop_frame cfg n fuel _ _ (read + 1) read (by omega), Function.update_same,
        hcont, i3, List.cons_append]
      congr 3
      ring
    · exact ⟨hinv, le_refl _, by simp [bytes_from_zero]⟩

/-! ## The operations on a port that is in range and open -/

theorem port_write_open (cfg : PortConfig) (ports : Table) (port : Int) (buf : Int → CChar)
    (n : Int) (h0 : 0 ≤ port) (h1 : port < cfg.NPORT) (hopen : (ports port).free = false) :
    port_write cfg ports port buf n =
      (Function.update ports port (port_write_loop cfg buf n n.toNat (ports port) 0).1,
        (port_write_loop cfg buf n n.toNat (ports port) 0).2) := by
  have hr : ¬ (port < 0 ∨ port ≥ cfg.NPORT) := by omega
  simp [port_write, hr, hopen]

theorem port_read_open (cfg : PortConfig) (ports : Table) (port : Int) (buf : Int → CChar)
    (n : Int) (h0 : 0 ≤ port) (h1 : port < cfg.NPORT) (hopen : (ports port).free = false) :
    port_read cfg ports port buf n =
      (Function.update ports port (port_read_loop cfg n n.toNat (ports port) buf 0).1,
        (port_read_loop cfg n n.toNat (ports port) buf 0).2.1,
        (port_read_loop cfg n n.toNat (ports port) buf 0).2.2) := by
  have hr : ¬ (port < 0 ∨ port ≥ cfg.NPORT) := by omega
  simp [port_read, hr, hopen]

theorem port_write_closed (cfg : PortConfig) (ports : Table) (port : Int) (buf : Int → CChar)
    (n : Int) (h : (port < 0 ∨ port ≥ cfg.NPORT) ∨ (ports port).free = true) :
    port_write cfg ports port buf n = (ports, -1) := by
  unfold port_write
  rcases h with h | h
  · rw [if_pos h]
  · split_ifs <;> rfl

theorem port_read_closed (cfg : PortConfig) (ports : Table) (port : Int) (buf : Int → CChar)
    (n : Int) (h : (port < 0 ∨ port ≥ cfg.NPORT) ∨ (ports port).free = true) :
    port_read cfg ports port buf n = (ports, buf, -1) := by
  unfold port_read
  rcases h with h | h
  · rw [if_pos h]
  · split_ifs <;> rfl

theorem call_step_fifo (cfg : PortConfig) (hS : cfg.PORT_BUF_SIZE < 2147483648) (p : Int)
    (h0 : 0 ≤ p) (h1 : p < cfg.NPORT) (Q : List CChar) (s : Transcript) (c : Call)
    (hs : fifo_state cfg p Q s) : fifo_state cfg p Q (call_step cfg p s c) := by
  obtain ⟨hopen, hinv, heq⟩ := hs
  cases c with
  | write buf n =>
    obtain ⟨-, -, hfree, -⟩ :=
      port_write_loop_count cfg buf n n.toNat (s.ports p) 0 (by simp)
    obtain ⟨r1, -, r3⟩ := port_write_loop_ring cfg buf n hS n.toNat (s.ports p) 0 hinv
    simp only [call_step, fifo_state, port_write_open cfg s.ports p buf n h0 h1 hopen,
      Function.update_same]
    refine ⟨by rw [hfree, hopen], r1, ?_⟩
    rw [r3, ← List.append_assoc, heq, List.append_assoc, sub_zero]
  | read buf n =>
    obtain ⟨-, -, hfree, -⟩ :=
      port_read_loop_count cfg n n.toNat (s.ports p) buf 0 (by simp)
    obtain ⟨r1, -, r3⟩ := port_read_loop_ring cfg n hS n.toNat (s.ports p) buf 0 hinv
    simp only [call_step, fifo_state, port_read_open cfg s.ports p buf n h0 h1 hopen,
      Function.update_same]
    refine ⟨by rw [hfree, hopen], r1, ?_⟩
    rw [List.append_assoc, ← heq, r3, sub_zero]

theorem foldl_call_step_fifo (cfg : PortConfig) (hS : cfg.PORT_BUF_SIZE < 2147483648) (p : Int)
    (h0 : 0 ≤ p) (h1 : p < cfg.NPORT) (Q : List CChar) (calls : List Call) :
    ∀ s : Transcript, fifo_state cfg p Q s →
      fifo_state cfg p Q (calls.foldl (call_step cfg p) s) := by
  induction calls with
  | nil => intro s hs; exact hs
  | cons c cs ih =>
    intro s hs
    exact ih _ (call_step_fifo cfg hS p h0 h1 Q s c hs)

/-! ## `port_init` -/

theorem port_init_loop_succ (cfg : PortConfig) (fuel : Nat) (i : Int) (ports : Table) :
    port_init_loop cfg (fuel + 1) i ports =
      if i < cfg.NPORT then
        port_init_loop cfg fuel (i + 1) (Function.update ports i (reset_port (ports i)))
      else ports := rfl

/-- The loop of `port_init` started at `i` resets exactly the ports `i .. NPORT - 1`. -/
theorem port_init_loop_apply (cfg : PortConfig) :
    ∀ (fuel : Nat) (i : Int) (ports : Table), (cfg.NPORT - i).toNat ≤ fuel → ∀ j : Int,
      port_init_loop cfg fuel i ports j =
        if i ≤ j ∧ j < cfg.NPORT then reset_port (ports j) else ports j := by
  intro fuel
  induction fuel with
  | zero =>
    intro i ports hf j
    have : ¬ (i ≤ j ∧ j < cfg.NPORT) := by omega
    rw [if_neg this]
    rfl
  | succ fuel ih =>
    intro i ports hf j
    rw [port_init_loop_succ]
    split_ifs with h1 h2 h2
    · rw [ih _ _ (by omega)]
      by_cases hj : j = i
      · subst hj
        rw [if_neg (by omega), Function.update_same]
      · rw [if_pos (by omega), Function.update_noteq hj]
    · rw [ih _ _ (by omega), if_neg (by omega), Function.update_noteq (by omega)]
    · omega
    · rfl

/-- The table after `port_init`, port by port: the loop result, overridden at the
three reserved numbers. -/
theorem port_init_apply (cfg : PortConfig) (ports : Table) (j : Int) :
    port_init cfg ports j =
      if j = cfg.PORT_CONSOLEIN ∨ j = cfg.PORT_CONSOLEOUT ∨ j = cfg.PORT_DISKCMD then
        kernel_port (port_init_loop cfg cfg.NPORT.toNat 0 ports j)
      else port_init_loop cfg cfg.NPORT.toNat 0 ports j := by
  simp only [port_init, Function.update_apply]
  split_ifs <;> simp_all [kernel_port]

/-- After `port_init`, a port in range has an empty ring and no owner; it is free
with type FREE unless its number is reserved. -/
theorem port_init_in_range (cfg : PortConfig) (ports : Table) (j : Int)
    (h0 : 0 ≤ j) (h1 : j < cfg.NPORT) :
    (port_init cfg ports j).head = 0 ∧ (port_init cfg ports j).tail = 0 ∧
    (port_init cfg ports j).count = 0 ∧ (port_init cfg ports j).owner = 0 ∧
    (port_init cfg ports j).buffer = (ports j).buffer ∧
    (¬ (j = cfg.PORT_CONSOLEIN ∨ j = cfg.PORT_CONSOLEOUT ∨ j = cfg.PORT_DISKCMD) →
      (port_init cfg ports j).free = true ∧ (port_init cfg ports j).type = PortType.FREE) := by
  have hL := port_init_loop_apply cfg cfg.NPORT.toNat 0 ports (by simp) j
  rw [if_pos ⟨h0, h1⟩] at hL
  rw [port_init_apply, hL]
  split_ifs with h
  · exact ⟨rfl, rfl, rfl, rfl, rfl, fun hn => absurd h hn⟩
  · exact ⟨rfl, rfl, rfl, rfl, rfl, fun _ => ⟨rfl, rfl⟩⟩

/-- After `port_init`, the three reserved ports are not free and have type KERNEL. -/
theorem port_init_reserved (cfg : PortConfig) (ports : Table) (j : Int)
    (h : j = cfg.PORT_CONSOLEIN ∨ j = cfg.PORT_CONSOLEOUT ∨ j = cfg.PORT_DISKCMD) :
    (port_init cfg ports j).free = false ∧ (port_init cfg ports j).type = PortType.KERNEL := by
  rw [port_init_apply, if_pos h]
  exact ⟨rfl, rfl⟩

/-! ## `port_acquire` -/

theorem port_acquire_scan_succ (cfg : PortConfig) (proc_id : Int) (fuel : Nat) (i : Int)
    (ports : Table) :
    port_acquire_scan cfg proc_id (fuel + 1) i ports =
      if i < cfg.NPORT then
        if !(ports i).free then port_acquire_scan cfg proc_id fuel (i + 1) ports
        else if (ports i).type ≠ PortType.FREE then
          port_acquire_scan cfg proc_id fuel (i + 1) ports
        else (Function.update ports i (acquired_port (ports i) proc_id), i)
      else (ports, -1) := rfl

/-- The scan of `port_acquire` started at `i`: either no port `i .. NPORT - 1` is
available and the scan returns `-1` with the table as it was, or it allocates
the first available port from `i` on and returns its number. -/
theorem port_acquire_scan_spec (cfg : PortConfig) (proc_id : Int) :
    ∀ (fuel : Nat) (i : Int) (ports : Table), (cfg.NPORT - i).toNat ≤ fuel →
      (port_acquire_scan cfg proc_id fuel i ports = (ports, -1) ∧
        ∀ j : Int, i ≤ j → j < cfg.NPORT → ¬ available (ports j)) ∨
      ∃ k : Int, i ≤ k ∧ k < cfg.NPORT ∧ available (ports k) ∧
        (∀ j : Int, i ≤ j → j < k → ¬ available (ports j)) ∧
        port_acquire_scan cfg proc_id fuel i ports =
          (Function.update ports k (acquired_port (ports k) proc_id), k) := by
  intro fuel
  induction fuel with
  | zero =>
    intro i ports hf
    exact Or.inl ⟨rfl, fun j h1 h2 => by omega⟩
  | succ fuel ih =>
    intro i ports hf
    rw [port_acquire_scan_succ]
    by_cases hi : i < cfg.NPORT
    · rw [if_pos hi]
      by_cases ha : available (ports i)
      · right
        refine ⟨i, le_refl _, hi, ha, fun j h1 h2 => by omega, ?_⟩
        simp [ha.1, ha.2]
      · have hskip : (if !(ports i).free then port_acquire_scan cfg proc_id fuel (i + 1) ports
            else if (ports i).type ≠ PortType.FREE then
              port_acquire_scan cfg proc_id fuel (i + 1) ports
            else (Function.update ports i (acquired_port (ports i) proc_id), i)) =
            port_acquire_scan cfg proc_id fuel (i + 1) ports := by
          unfold available at ha
          split_ifs with c1 c2
          · rfl
          · rfl
          · exact absurd ⟨by simpa using c1, by simpa using c2⟩ ha
        rw [hskip]
        have hstep : ∀ j : Int, i ≤ j → ¬ (i + 1 ≤ j) → j = i := fun j a b => by omega
        rcases ih (i + 1) ports (by omega) with ⟨e, hn⟩ | ⟨k, k0, k1, ka, kn, e⟩
        · left
          refine ⟨e, fun j h1 h2 => ?_⟩
          by_cases hj : i + 1 ≤ j
          · exact hn j hj h2
          · rw [hstep j h1 hj]; exact ha
        · right
          refine ⟨k, by omega, k1, ka, fun j h1 h2 => ?_, e⟩
          by_cases hj : i + 1 ≤ j
          · exact kn j hj h2
          · rw [hstep j h1 hj]; exact ha
    · rw [if_neg hi]
      exact Or.inl ⟨rfl, fun j h1 h2 => by omega⟩

/-- The function `port_acquire` with the sentinel `-1`. -/
theorem port_acquire_any (cfg : PortConfig) (ports : Table) (proc_id : Int) :
    (port_acquire cfg ports (-1) proc_id = (ports, -1) ∧
        ∀ j : Int, 0 ≤ j → j < cfg.NPORT → ¬ available (ports j)) ∨
      ∃ k : Int, 0 ≤ k ∧ k < cfg.NPORT ∧ available (ports k) ∧
        (∀ j : Int, 0 ≤ j → j < k → ¬ available (ports j)) ∧
        port_acquire cfg ports (-1) proc_id =
          (Function.update ports k (acquired_port (ports k) proc_id), k) := by
  have h : port_acquire cfg ports (-1) proc_id =
      port_acquire_scan cfg proc_id cfg.NPORT.toNat 0 ports := by
    simp [port_acquire]
  rw [h]
  exact port_acquire_scan_spec cfg proc_id cfg.NPORT.toNat 0 ports (by simp)

/-- The function `port_acquire` with a requested number other than `-1`. -/
theorem port_acquire_concrete (cfg : PortConfig) (ports : Table) (port : Int) (proc_id : Int)
    (hne : port ≠ -1) :
    port_acquire cfg ports port proc_id =
      if (port < 0 ∨ port ≥ cfg.NPORT) ∨ (ports port).type = PortType.KERNEL ∨
          (ports port).free = false then (ports, -1)
      else (Function.update ports port (acquired_port (ports port) proc_id), port) := by
  unfold port_acquire
  rw [if_pos hne]
  by_cases h1 : port < 0 ∨ port ≥ cfg.NPORT
  · rw [if_pos h1, if_pos (Or.inl h1)]
  · rw [if_neg h1]
    by_cases h2 : (ports port).type = PortType.KERNEL
    · rw [if_pos h2, if_pos (Or.inr (Or.inl h2))]
    · rw [if_neg h2]
      by_cases h3 : (ports port).free = false
      · rw [if_pos (by simp [h3]), if_pos (Or.inr (Or.inr h3))]
      · rw [if_neg (by simpa using h3), if_neg (by tauto)]
        rfl

/-- Every call of `port_acquire` either fails, returning `-1` with the table as
it was, or allocates one port in range that was free and not of type KERNEL,
and returns its number. -/
theorem port_acquire_cases (cfg : PortConfig) (ports : Table) (port : Int) (proc_id : Int) :
    port_acquire cfg ports port proc_id = (ports, -1) ∨
    ∃ k : Int, 0 ≤ k ∧ k < cfg.NPORT ∧ (ports k).free = true ∧
      (ports k).type ≠ PortType.KERNEL ∧
      port_acquire cfg ports port proc_id =
        (Function.update ports k (acquired_port (ports k) proc_id), k) := by
  by_cases hne : port = -1
  · subst hne
    rcases port_acquire_any cfg ports proc_id with ⟨e, -⟩ | ⟨k, k0, k1, ka, -, e⟩
    · exact Or.inl e
    · exact Or.inr ⟨k, k0, k1, ka.1, by rw [ka.2]; decide, e⟩
  · rw [port_acquire_concrete cfg ports port proc_id hne]
    split_ifs with h
    · exact Or.inl rfl
    · right
      refine ⟨port, by omega, by omega, ?_, ?_, rfl⟩
      · simpa using fun hf => h (Or.inr (Or.inr hf))
      · exact fun hk => h (Or.inr (Or.inl hk))

/-! ## `port_close` -/

theorem port_close_eq (cfg : PortConfig) (ports : Table) (port : Int) :
    port_close cfg ports port =
      if (port < 0 ∨ port ≥ cfg.NPORT) ∨ (ports port).free = true ∨
          (ports port).type = PortType.KERNEL then ports
      else Function.update ports port (closed_port (ports port)) := by
  unfold port_close
  by_cases h1 : port < 0 ∨ port ≥ cfg.NPORT
  · rw [if_pos h1, if_pos (Or.inl h1)]
  · rw [if_neg h1]
    by_cases h2 : (ports port).free = true
    · rw [if_pos h2, if_pos (Or.inr (Or.inl h2))]
    · rw [if_neg h2]
      by_cases h3 : (ports port).type = PortType.KERNEL
      · rw [if_pos h3, if_pos (Or.inr (Or.inr h3))]
      · rw [if_neg h3, if_neg (by tauto)]
        rfl

/-! ## The ring-buffer invariant along a run -/

theorem ring_inv_of_zero (cfg : PortConfig) (hpos : 0 < cfg.PORT_BUF_SIZE) (p : port)
    (hh : p.head = 0) (ht : p.tail = 0) (hc : p.count = 0) : ring_inv cfg p := by
  unfold ring_inv
  rw [hh, ht, hc]
  simp
  omega

theorem table_inv_update (cfg : PortConfig) (ports : Table) (i : Int) (q : port)
    (h : table_inv cfg ports) (hq : ring_inv cfg q) : table_inv cfg (Function.update ports i q) := by
  intro j j0 j1
  by_cases hj : j = i
  · subst hj
    rw [Function.update_same]
    exact hq
  · rw [Function.update_noteq hj]
    exact h j j0 j1

/-- After `port_init`, run on any table, every port has an empty ring. -/
theorem port_init_table_inv (cfg : PortConfig) (hpos : 0 < cfg.PORT_BUF_SIZE) (ports : Table) :
    table_inv cfg (port_init cfg ports) := by
  intro j j0 j1
  obtain ⟨a, b, c, -⟩ := port_init_in_range cfg ports j j0 j1
  exact ring_inv_of_zero cfg hpos _ a b c

/-- Each operation keeps the ring-buffer invariant of every port. -/
theorem step_table_inv (cfg : PortConfig) (hpos : 0 < cfg.PORT_BUF_SIZE)
    (hS : cfg.PORT_BUF_SIZE < 2147483648) (ports : Table) (op : Op)
    (h : table_inv cfg ports) : table_inv cfg (step cfg ports op) := by
  cases op with
  | init => exact port_init_table_inv cfg hpos ports
  | acquire port proc_id =>
    simp only [step]
    rcases port_acquire_cases cfg ports port proc_id with e | ⟨k, -, -, -, -, e⟩
    · rw [e]; exact h
    · rw [e]
      exact table_inv_update cfg ports k _ h (ring_inv_of_zero cfg hpos _ rfl rfl rfl)
  | close port =>
    simp only [step]
    rw [port_close_eq]
    split_ifs
    · exact h
    · exact table_inv_update cfg ports port _ h (ring_inv_of_zero cfg hpos _ rfl rfl rfl)
  | write port buf n =>
    simp only [step]
    by_cases hc : (port < 0 ∨ port ≥ cfg.NPORT) ∨ (ports port).free = true
    · rw [port_write_closed cfg ports port buf n hc]; exact h
    · have h0 : 0 ≤ port := by omega
      have h1 : port < cfg.NPORT := by omega
      rw [port_write_open cfg ports port buf n h0 h1 (by simpa using fun hf => hc (Or.inr hf))]
      exact table_inv_update cfg ports port _ h
        (port_write_loop_ring cfg buf n hS n.toNat (ports port) 0 (h port h0 h1)).1
  | read port buf n =>
    simp only [step]
    by_cases hc : (port < 0 ∨ port ≥ cfg.NPORT) ∨ (ports port).free = true
    · rw [port_read_closed cfg ports port buf n hc]; exact h
    · have h0 : 0 ≤ port := by omega
      have h1 : port < cfg.NPORT := by omega
      rw [port_read_open cfg ports port buf n h0 h1 (by simpa using fun hf => hc (Or.inr hf))]
      exact table_inv_update cfg ports port _ h
        (port_read_loop_ring cfg n hS n.toNat (ports port) buf 0 (h port h0 h1)).1

theorem run_table_inv (cfg : PortConfig) (hpos : 0 < cfg.PORT_BUF_SIZE)
    (hS : cfg.PORT_BUF_SIZE < 2147483648) (ops : List Op) :
    ∀ ports : Table, table_inv cfg ports → table_inv cfg (run cfg ports ops) := by
  induction ops with
  | nil => intro ports h; exact h
  | cons op ops ih =>
    intro ports h
    exact ih _ (step_table_inv cfg hpos hS ports op h)

/-! ## The fields `port_write` and `port_read` leave alone -/

theorem port_write_fields (cfg : PortConfig) (ports : Table) (port : Int) (buf : Int → CChar)
    (n : Int) (j : Int) :
    ((port_write cfg ports port buf n).1 j).free = (ports j).free ∧
    ((port_write cfg ports port buf n).1 j).owner = (ports j).owner ∧
    ((port_write cfg ports port buf n).1 j).type = (ports j).type := by
  by_cases hc : (port < 0 ∨ port ≥ cfg.NPORT) ∨ (ports port).free = true
  · rw [port_write_closed cfg ports port buf n hc]
    exact ⟨rfl, rfl, rfl⟩
  · rw [port_write_open cfg ports port buf n (by omega) (by omega)
      (by simpa using fun hf => hc (Or.inr hf))]
    by_cases hj : j = port
    · subst hj
      obtain ⟨-, -, a, b, c, -⟩ := port_write_loop_count cfg buf n n.toNat (ports j) 0 (by simp)
      simp only [Function.update_same]
      exact ⟨a, b, c⟩
    · simp [Function.update_noteq hj]

theorem port_read_fields (cfg : PortConfig) (ports : Table) (port : Int) (buf : Int → CChar)
    (n : Int) (j : Int) :
    ((port_read cfg ports port buf n).1 j).free = (ports j).free ∧
    ((port_read cfg ports port buf n).1 j).owner = (ports j).owner ∧
    ((port_read cfg ports port buf n).1 j).type = (ports j).type := by
  by_cases hc : (port < 0 ∨ port ≥ cfg.NPORT) ∨ (ports port).free = true
  · rw [port_read_closed cfg ports port buf n hc]
    exact ⟨rfl, rfl, rfl⟩
  · rw [port_read_open cfg ports port buf n (by omega) (by omega)
      (by simpa using fun hf => hc (Or.inr hf))]
    by_cases hj : j = port
    · subst hj
      obtain ⟨-, -, a, b, c, -⟩ := port_read_loop_count cfg n n.toNat (ports j) buf 0 (by simp)
      simp only [Function.update_same]
      exact ⟨a, b, c⟩
    · simp [Function.update_noteq hj]

/-! ## The kernel ports along a run -/

theorem port_init_kernel_inv (cfg : PortConfig) (ports : Table) :
    kernel_inv cfg (port_init cfg ports) := by
  intro j
  exact ⟨fun hr => port_init_reserved cfg ports j hr,
    fun j0 j1 hr => ((port_init_in_range cfg ports j j0 j1).2.2.2.2.2 hr).2⟩

/-- Storing at a port that is not reserved a record of type FREE keeps the
kernel-port invariant. -/
theorem kernel_inv_update (cfg : PortConfig) (ports : Table) (k : Int) (q : port)
    (h : kernel_inv cfg ports) (hk : ¬ reserved cfg k) (hq : q.type = PortType.FREE) :
    kernel_inv cfg (Function.update ports k q) := by
  intro j
  by_cases hj : j = k
  · subst hj
    rw [Function.update_same]
    exact ⟨fun hr => absurd hr hk, fun _ _ _ => hq⟩
  · rw [Function.update_noteq hj]
    exact h j

/-- Each operation keeps the kernel-port invariant. -/
theorem step_kernel_inv (cfg : PortConfig) (ports : Table) (op : Op)
    (h : kernel_inv cfg ports) : kernel_inv cfg (step cfg ports op) := by
  cases op with
  | init => exact port_init_kernel_inv cfg ports
  | acquire port proc_id =>
    simp only [step]
    rcases port_acquire_cases cfg ports port proc_id with e | ⟨k, k0, k1, kf, kt, e⟩
    · rw [e]; exact h
    · rw [e]
      have hk : ¬ reserved cfg k := fun hr => by
        have := ((h k).1 hr).1
        rw [kf] at this
        exact Bool.noConfusion this
      exact kernel_inv_update cfg ports k _ h hk ((h k).2 k0 k1 hk)
  | close port =>
    simp only [step]
    rw [port_close_eq]
    split_ifs with hc
    · exact h
    · have hk : ¬ reserved cfg port := fun hr => hc (Or.inr (Or.inr ((h port).1 hr).2))
      exact kernel_inv_update cfg ports port _ h hk rfl
  | write port buf n =>
    intro j
    obtain ⟨a, -, c⟩ := port_write_fields cfg ports port buf n j
    simp only [step]
    rw [a, c]
    exact h j
  | read port buf n =>
    intro j
    obtain ⟨a, -, c⟩ := port_read_fields cfg ports port buf n j
    simp only [step]
    rw [a, c]
    exact h j

theorem run_kernel_inv (cfg : PortConfig) (ops : List Op) :
    ∀ ports : Table, kernel_inv cfg ports → kernel_inv cfg (run cfg ports ops) := by
  induction ops with
  | nil => intro ports h; exact h
  | cons op ops ih =>
    intro ports h
    exact ih _ (step_kernel_inv cfg ports op h)

/-! ## A port that stays allocated -/

/-- A call other than `port_close (p)` and `port_init` leaves port `p`
allocated to its owner. -/
theorem step_held_by (cfg : PortConfig) (ports : Table) (p : Int) (owner : Int) (op : Op)
    (hop : keeps_open p op) (h : held_by ports p owner) :
    held_by (step cfg ports op) p owner := by
  cases op with
  | init => exact absurd hop id
  | acquire port proc_id =>
    simp only [step]
    rcases port_acquire_cases cfg ports port proc_id with e | ⟨k, -, -, kf, -, e⟩
    · rw [e]; exact h
    · rw [e]
      have hpk : p ≠ k := fun hpk => by
        have := h.1
        rw [hpk, kf] at this
        exact Bool.noConfusion this
      unfold held_by
      simp only [Function.update_noteq hpk]
      exact h
  | close q =>
    have hqp : p ≠ q := fun e => hop e.symm
    simp only [step]
    rw [port_close_eq]
    split_ifs
    · exact h
    · unfold held_by
      simp only [Function.update_noteq hqp]
      exact h
  | write port buf n =>
    obtain ⟨a, b, -⟩ := port_write_fields cfg ports port buf n p
    unfold held_by
    simp only [step]
    rw [a, b]
    exact h
  | read port buf n =>
    obtain ⟨a, b, -⟩ := port_read_fields cfg ports port buf n p
    unfold held_by
    simp only [step]
    rw [a, b]
    exact h

theorem run_held_by (cfg : PortConfig) (p : Int) (owner : Int) (ops : List Op) :
    ∀ ports : Table, (∀ op ∈ ops, keeps_open p op) → held_by ports p owner →
      held_by (run cfg ports ops) p owner := by
  induction ops with
  | nil => intro ports _ h; exact h
  | cons op ops ih =>
    intro ports hops h
    exact ih _ (fun o ho => hops o (List.mem_cons_of_mem _ ho))
      (step_held_by cfg ports p owner op (hops op (List.mem_cons_self _ _)) h)

/-! ## The claims -/

/-- C1. FIFO order: for an open port `p` whose state satisfies the ring-buffer
invariant and whose logical contents are `Q`, after any finite sequence of
`port_write` and `port_read` calls on `p` (with any `n`, so in particular
every `n ≥ 0`) the bytes delivered into the read destinations are a prefix of
`Q` followed by the bytes accepted by the writes, and the final logical
contents of the port are exactly the remaining suffix. -/
theorem C1_fifo_order (cfg : PortConfig) (hS : cfg.PORT_BUF_SIZE < 2147483648)
    (ports : Table) (p : Int) (h0 : 0 ≤ p) (h1 : p < cfg.NPORT)
    (hopen : (ports p).free = false) (hinv : ring_inv cfg (ports p)) (calls : List Call) :
    (run_calls cfg p ports calls).delivered <+:
        contents cfg (ports p) ++ (run_calls cfg p ports calls).accepted ∧
    (run_calls cfg p ports calls).delivered ++
        contents cfg ((run_calls cfg p ports calls).ports p) =
      contents cfg (ports p) ++ (run_calls cfg p ports calls).accepted := by
  have h := foldl_call_step_fifo cfg hS p h0 h1 (contents cfg (ports p)) calls
    { ports := ports, delivered := [], accepted := [] } ⟨hopen, hinv, by simp⟩
  exact ⟨⟨_, h.2.2⟩, h.2.2⟩

/-- Witness of C1: port 3 of the sample table, holding 7, 9 across the wrap of
its buffer, with a write of five bytes followed by a read of four. -/
theorem C1_fifo_order_witness :
    cfg5.PORT_BUF_SIZE < 2147483648 ∧ (0 : Int) ≤ 3 ∧ (3 : Int) < cfg5.NPORT ∧
    (sample_table 3).free = false ∧ ring_inv cfg5 (sample_table 3) ∧
    (run_calls cfg5 3 sample_table
        [Call.write sample_data 5, Call.read (fun _ => 0) 4]).delivered ++
      contents cfg5 ((run_calls cfg5 3 sample_table
        [Call.write sample_data 5, Call.read (fun _ => 0) 4]).ports 3) =
    contents cfg5 (sample_table 3) ++ (run_calls cfg5 3 sample_table
        [Call.write sample_data 5, Call.read (fun _ => 0) 4]).accepted :=
  ⟨by decide, by decide, by decide, by decide, by decide,
    (C1_fifo_order cfg5 (by decide) sample_table 3 (by decide) (by decide) (by decide)
      (by decide)
      [Call.write sample_data 5, Call.read (fun _ => 0) 4]).2⟩

/-- C2. Capacity invariant: in every state reached from `port_init` (run on any
table) by any sequence of `port_init`, `port_acquire`, `port_close`,
`port_write` and `port_read` calls with any arguments, every port `i` of the
table satisfies `0 ≤ count ≤ PORT_BUF_SIZE`, `0 ≤ head < PORT_BUF_SIZE`,
`0 ≤ tail < PORT_BUF_SIZE` and `tail = (head + count) mod PORT_BUF_SIZE`.  The
capacity is a positive C `int`. -/
theorem C2_capacity_invariant (cfg : PortConfig) (hpos : 0 < cfg.PORT_BUF_SIZE)
    (hS : cfg.PORT_BUF_SIZE < 2147483648) (ports0 : Table) (ops : List Op) (i : Int)
    (h0 : 0 ≤ i) (h1 : i < cfg.NPORT) :
    0 ≤ (run cfg (port_init cfg ports0) ops i).count ∧
    (run cfg (port_init cfg ports0) ops i).count ≤ cfg.PORT_BUF_SIZE ∧
    0 ≤ (run cfg (port_init cfg ports0) ops i).head ∧
    (run cfg (port_init cfg ports0) ops i).head < cfg.PORT_BUF_SIZE ∧
    0 ≤ (run cfg (port_init cfg ports0) ops i).tail ∧
    (run cfg (port_init cfg ports0) ops i).tail < cfg.PORT_BUF_SIZE ∧
    (run cfg (port_init cfg ports0) ops i).tail =
      ((run cfg (port_init cfg ports0) ops i).head +
        (run cfg (port_init cfg ports0) ops i).count) % cfg.PORT_BUF_SIZE :=
  run_table_inv cfg hpos hS ops (port_init cfg ports0) (port_init_table_inv cfg hpos ports0) i h0 h1

/-- Witness of C2: port 3 of the four-port table after the sample run. -/
theorem C2_capacity_invariant_witness :
    0 < cfg5.PORT_BUF_SIZE ∧ cfg5.PORT_BUF_SIZE < 2147483648 ∧ (0 : Int) ≤ 3 ∧
    (3 : Int) < cfg5.NPORT ∧
    0 ≤ (run cfg5 (port_init cfg5 sample_table) sample_ops 3).count ∧
    (run cfg5 (port_init cfg5 sample_table) sample_ops 3).count ≤ cfg5.PORT_BUF_SIZE :=
  ⟨by decide, by decide, by decide, by decide,
    (C2_capacity_invariant cfg5 (by decide) (by decide) sample_table sample_ops 3
      (by decide) (by decide)).1,
    (C2_capacity_invariant cfg5 (by decide) (by decide) sample_table sample_ops 3
      (by decide) (by decide)).2.1⟩

/-- C6. Dynamic acquisition: in every table state, `port_acquire (-1, owner)`
returns the smallest index `i` of `[0, NPORT)` whose port has `free` set and
type FREE, and afterwards that port has `free` clear, the given owner and
`head = tail = count = 0`; it returns -1 if and only if there is no such
index, and then the table is as it was. -/
theorem C6_dynamic_acquisition (cfg : PortConfig) (ports : Table) (owner : Int) :
    (∀ i : Int, 0 ≤ i → i < cfg.NPORT →
      ((ports i).free = true ∧ (ports i).type = PortType.FREE) →
      (∀ j : Int, 0 ≤ j → j < i →
        ¬ ((ports j).free = true ∧ (ports j).type = PortType.FREE)) →
      (port_acquire cfg ports (-1) owner).2 = i ∧
      ((port_acquire cfg ports (-1) owner).1 i).free = false ∧
      ((port_acquire cfg ports (-1) owner).1 i).owner = owner ∧
      ((port_acquire cfg ports (-1) owner).1 i).head = 0 ∧
      ((port_acquire cfg ports (-1) owner).1 i).tail = 0 ∧
      ((port_acquire cfg ports (-1) owner).1 i).count = 0) ∧
    ((port_acquire cfg ports (-1) owner).2 = -1 ↔
      ¬ ∃ i : Int, 0 ≤ i ∧ i < cfg.NPORT ∧
        (ports i).free = true ∧ (ports i).type = PortType.FREE) ∧
    ((port_acquire cfg ports (-1) owner).2 = -1 →
      (port_acquire cfg ports (-1) owner).1 = ports) := by
  rcases port_acquire_any cfg ports owner with ⟨e, hn⟩ | ⟨k, k0, k1, ka, kn, e⟩
  · rw [e]
    refine ⟨fun i i0 i1 hi _ => absurd hi (hn i i0 i1), ?_, fun _ => rfl⟩
    simp only [true_iff]
    rintro ⟨i, i0, i1, hi⟩
    exact hn i i0 i1 hi
  · rw [e]
    refine ⟨fun i i0 i1 hi hmin => ?_, ?_, fun h => ?_⟩
    · have hik : i = k := by
        rcases lt_trichotomy i k with hlt | heq | hgt
        · exact absurd hi (kn i i0 hlt)
        · exact heq
        · exact absurd ka (hmin k k0 hgt)
      subst hik
      simp [Function.update_same, acquired_port]
    · simp only
      constructor
      · intro h; omega
      · intro h; exact absurd ⟨k, k0, k1, ka⟩ h
    · simp only at h; omega

/-- C7. Concrete acquisition: for a requested number `id` other than the
sentinel -1, `port_acquire (id, owner)` fails (returns -1, table as it was) if
and only if `id` is outside `[0, NPORT)`, or the port has type KERNEL, or the
port is not free; otherwise it returns `id` and the port has `free` clear, the
given owner and `head = tail = count = 0`, with its type, its buffer bytes and
every other port as they were. -/
theorem C7_concrete_acquisition (cfg : PortConfig) (ports : Table) (id : Int) (owner : Int)
    (hne : id ≠ -1) :
    ((port_acquire cfg ports id owner).2 = -1 ↔
      ((id < 0 ∨ id ≥ cfg.NPORT) ∨ (ports id).type = PortType.KERNEL ∨
        (ports id).free = false)) ∧
    ((port_acquire cfg ports id owner).2 = -1 → (port_acquire cfg ports id owner).1 = ports) ∧
    ((port_acquire cfg ports id owner).2 ≠ -1 →
      (port_acquire cfg ports id owner).2 = id ∧
      ((port_acquire cfg ports id owner).1 id).free = false ∧
      ((port_acquire cfg ports id owner).1 id).owner = owner ∧
      ((port_acquire cfg ports id owner).1 id).head = 0 ∧
      ((port_acquire cfg ports id owner).1 id).tail = 0 ∧
      ((port_acquire cfg ports id owner).1 id).count = 0 ∧
      ((port_acquire cfg ports id owner).1 id).type = (ports id).type ∧
      ((port_acquire cfg ports id owner).1 id).buffer = (ports id).buffer ∧
      ∀ q : Int, q ≠ id → (port_acquire cfg ports id owner).1 q = ports q) := by
  rw [port_acquire_concrete cfg ports id owner hne]
  split_ifs with h
  · exact ⟨⟨fun _ => h, fun _ => rfl⟩, fun _ => rfl, fun hn => absurd rfl hn⟩
  · refine ⟨⟨fun e => absurd e hne, fun hh => absurd hh h⟩, fun e => absurd e hne, fun _ => ?_⟩
    have hq : ∀ q : Int, q ≠ id →
        Function.update ports id (acquired_port (ports id) owner) q = ports q :=
      fun q hq => Function.update_noteq hq _ _
    simpa [Function.update_same, acquired_port] using hq

/-- Witness of C7: port 3 of the initialised four-port table is requested by
process 7. -/
theorem C7_concrete_acquisition_witness :
    (3 : Int) ≠ -1 ∧
    ((port_acquire cfg5 (port_init cfg5 blank_table) 3 7).2 = -1 ↔
      (((3 : Int) < 0 ∨ (3 : Int) ≥ cfg5.NPORT) ∨
        (port_init cfg5 blank_table 3).type = PortType.KERNEL ∨
        (port_init cfg5 blank_table 3).free = false)) :=
  ⟨by decide, (C7_concrete_acquisition cfg5 (port_init cfg5 blank_table) 3 7 (by decide)).1⟩

/-- C8. Reserved-port protection (acquire): the reserved numbers being indices
of the table, in every state reached from `port_init` by any sequence of
operations, `port_acquire` called with any requested number (a reserved one,
another one or the sentinel -1) and any owner never returns `PORT_CONSOLEIN`,
`PORT_CONSOLEOUT` or `PORT_DISKCMD`, and never changes the `free` flag or the
owner of a reserved port. -/
theorem C8_reserved_port_protection (cfg : PortConfig) (hwf : reserved_in_range cfg)
    (ports0 : Table) (ops : List Op) (id : Int) (owner : Int) :
    (port_acquire cfg (run cfg (port_init cfg ports0) ops) id owner).2 ≠ cfg.PORT_CONSOLEIN ∧
    (port_acquire cfg (run cfg (port_init cfg ports0) ops) id owner).2 ≠ cfg.PORT_CONSOLEOUT ∧
    (port_acquire cfg (run cfg (port_init cfg ports0) ops) id owner).2 ≠ cfg.PORT_DISKCMD ∧
    ∀ j : Int, (j = cfg.PORT_CONSOLEIN ∨ j = cfg.PORT_CONSOLEOUT ∨ j = cfg.PORT_DISKCMD) →
      ((port_acquire cfg (run cfg (port_init cfg ports0) ops) id owner).1 j).free =
        (run cfg (port_init cfg ports0) ops j).free ∧
      ((port_acquire cfg (run cfg (port_init cfg ports0) ops) id owner).1 j).owner =
        (run cfg (port_init cfg ports0) ops j).owner := by
  have hk := run_kernel_inv cfg ops (port_init cfg ports0) (port_init_kernel_inv cfg ports0)
  obtain ⟨⟨a0, -⟩, ⟨b0, -⟩, ⟨c0, -⟩⟩ := hwf
  rcases port_acquire_cases cfg (run cfg (port_init cfg ports0) ops) id owner with
    e | ⟨k, k0, k1, kf, kt, e⟩
  · rw [e]
    exact ⟨by simp only; omega, by simp only; omega, by simp only; omega,
      fun j _ => ⟨rfl, rfl⟩⟩
  · rw [e]
    have hnr : ∀ j : Int, reserved cfg j → j ≠ k := fun j hr hjk => by
      have := ((hk j).1 hr).1
      rw [hjk, kf] at this
      exact Bool.noConfusion this
    refine ⟨fun h => hnr k (Or.inl h) rfl, fun h => hnr k (Or.inr (Or.inl h)) rfl,
      fun h => hnr k (Or.inr (Or.inr h)) rfl, fun j hj => ?_⟩
    simp [Function.update_noteq (hnr j hj)]

/-- Witness of C8: after the sample run on the four-port table, a request for
the reserved port 0 and the table it leaves. -/
theorem C8_reserved_port_protection_witness :
    reserved_in_range cfg5 ∧
    (port_acquire cfg5 (run cfg5 (port_init cfg5 blank_table) sample_ops) 0 7).2 ≠
      cfg5.PORT_CONSOLEIN :=
  ⟨by decide,
    (C8_reserved_port_protection cfg5 (by decide) blank_table
      sample_ops 0 7).1⟩

/-- C9. Kernel-port invariant: in every state reached from `port_init` by any
sequence of calls, the three reserved ports have type KERNEL and `free` clear,
no other port of the table has type KERNEL, and so a port of type KERNEL is
never free. -/
theorem C9_kernel_port_invariant (cfg : PortConfig) (ports0 : Table) (ops : List Op) :
    ((run cfg (port_init cfg ports0) ops cfg.PORT_CONSOLEIN).type = PortType.KERNEL ∧
      (run cfg (port_init cfg ports0) ops cfg.PORT_CONSOLEIN).free = false) ∧
    ((run cfg (port_init cfg ports0) ops cfg.PORT_CONSOLEOUT).type = PortType.KERNEL ∧
      (run cfg (port_init cfg ports0) ops cfg.PORT_CONSOLEOUT).free = false) ∧
    ((run cfg (port_init cfg ports0) ops cfg.PORT_DISKCMD).type = PortType.KERNEL ∧
      (run cfg (port_init cfg ports0) ops cfg.PORT_DISKCMD).free = false) ∧
    (∀ j : Int, 0 ≤ j → j < cfg.NPORT →
      j ≠ cfg.PORT_CONSOLEIN → j ≠ cfg.PORT_CONSOLEOUT → j ≠ cfg.PORT_DISKCMD →
      (run cfg (port_init cfg ports0) ops j).type ≠ PortType.KERNEL) ∧
    (∀ j : Int, 0 ≤ j → j < cfg.NPORT →
      (run cfg (port_init cfg ports0) ops j).type = PortType.KERNEL →
      (run cfg (port_init cfg ports0) ops j).free = false) := by
  have hk := run_kernel_inv cfg ops (port_init cfg ports0) (port_init_kernel_inv cfg ports0)
  have hres : ∀ j : Int, reserved cfg j →
      (run cfg (port_init cfg ports0) ops j).type = PortType.KERNEL ∧
      (run cfg (port_init cfg ports0) ops j).free = false :=
    fun j hr => ⟨((hk j).1 hr).2, ((hk j).1 hr).1⟩
  have hoth : ∀ j : Int, 0 ≤ j → j < cfg.NPORT → ¬ reserved cfg j →
      (run cfg (port_init cfg ports0) ops j).type ≠ PortType.KERNEL := fun j j0 j1 hr => by
    rw [(hk j).2 j0 j1 hr]
    decide
  refine ⟨hres _ (Or.inl rfl), hres _ (Or.inr (Or.inl rfl)), hres _ (Or.inr (Or.inr rfl)),
    fun j j0 j1 n1 n2 n3 => hoth j j0 j1 (fun hr => ?_), fun j j0 j1 ht => ?_⟩
  · rcases hr with h | h | h
    · exact n1 h
    · exact n2 h
    · exact n3 h
  · by_cases hr : reserved cfg j
    · exact (hres j hr).2
    · exact absurd ht (hoth j j0 j1 hr)

/-- C11. `port_close` is a no-op in its three guarded cases: in every table
state, for a port number outside `[0, NPORT)`, or the number of a port that is
already free, or of a port whose type is KERNEL (so any reserved port after
`port_init`), the table after `port_close` is the table before, every field of
every port and the buffered bytes included. -/
theorem C11_close_guarded_noop (cfg : PortConfig) (ports : Table) (port : Int)
    (h : (port < 0 ∨ port ≥ cfg.NPORT) ∨ (ports port).free = true ∨
      (ports port).type = PortType.KERNEL) :
    port_close cfg ports port = ports := by
  rw [port_close_eq, if_pos h]

/-- Witness of C11: the reserved port 0 of the initialised four-port table. -/
theorem C11_close_guarded_noop_witness :
    (((0 : Int) < 0 ∨ (0 : Int) ≥ cfg5.NPORT) ∨ (port_init cfg5 sample_table 0).free = true ∨
      (port_init cfg5 sample_table 0).type = PortType.KERNEL) ∧
    port_close cfg5 (port_init cfg5 sample_table) 0 = port_init cfg5 sample_table :=
  ⟨by decide, C11_close_guarded_noop cfg5 (port_init cfg5 sample_table) 0 (by decide)⟩

/-- C12. Release effect of `port_close`: for a port in range that is not free
and whose type is not KERNEL, after `port_close` the port has `free` set, type
FREE, owner 0 and `head = tail = count = 0`, and every other port of the table
is as it was. -/
theorem C12_close_release (cfg : PortConfig) (ports : Table) (p : Int)
    (h0 : 0 ≤ p) (h1 : p < cfg.NPORT) (hopen : (ports p).free = false)
    (hk : (ports p).type ≠ PortType.KERNEL) :
    (port_close cfg ports p p).free = true ∧
    (port_close cfg ports p p).type = PortType.FREE ∧
    (port_close cfg ports p p).owner = 0 ∧
    (port_close cfg ports p p).head = 0 ∧
    (port_close cfg ports p p).tail = 0 ∧
    (port_close cfg ports p p).count = 0 ∧
    ∀ q : Int, q ≠ p → port_close cfg ports p q = ports q := by
  have hc : ¬ ((p < 0 ∨ p ≥ cfg.NPORT) ∨ (ports p).free = true ∨
      (ports p).type = PortType.KERNEL) := by
    rintro (h | h | h)
    · omega
    · rw [hopen] at h; exact Bool.noConfusion h
    · exact hk h
  rw [port_close_eq, if_neg hc]
  have hq : ∀ q : Int, q ≠ p → Function.update ports p (closed_port (ports p)) q = ports q :=
    fun q hq => Function.update_noteq hq _ _
  simpa [Function.update_same, closed_port] using hq

/-- Witness of C12: the open port 3 of the sample table is closed. -/
theorem C12_close_release_witness :
    (0 : Int) ≤ 3 ∧ (3 : Int) < cfg5.NPORT ∧ (sample_table 3).free = false ∧
    (sample_table 3).type ≠ PortType.KERNEL ∧
    (port_close cfg5 sample_table 3 3).free = true :=
  ⟨by decide, by decide, by decide, by decide,
    (C12_close_release cfg5 sample_table 3 (by decide) (by decide) (by decide) (by decide)).1⟩

/-- C13. Idempotent close: for every table state and every port number, valid
or not, `port_close` applied twice gives the same table as `port_close` applied
once; and `port_close` of a port that is already free gives the table it was
applied to. -/
theorem C13_close_idempotent (cfg : PortConfig) (ports : Table) (p : Int) :
    port_close cfg (port_close cfg ports p) p = port_close cfg ports p ∧
    ((ports p).free = true → port_close cfg ports p = ports) := by
  constructor
  · by_cases hc : (p < 0 ∨ p ≥ cfg.NPORT) ∨ (ports p).free = true ∨
        (ports p).type = PortType.KERNEL
    · have e : port_close cfg ports p = ports := by rw [port_close_eq, if_pos hc]
      rw [e, e]
    · have e : port_close cfg ports p = Function.update ports p (closed_port (ports p)) := by
        rw [port_close_eq, if_neg hc]
      rw [e, port_close_eq, if_pos]
      right; left
      rw [Function.update_same]
      rfl
  · intro hf
    rw [port_close_eq, if_pos (Or.inr (Or.inl hf))]

/-- C14. Postcondition of `port_init`: from any prior table, after `port_init`
every port of the table has `head = tail = count = 0`; the three reserved
ports have `free` clear and type KERNEL; every other port of the table has
`free` set, owner 0 and type FREE; and `port_init` run twice gives the same
table as `port_init` run once. -/
theorem C14_init_postcondition (cfg : PortConfig) (ports : Table) :
    (∀ j : Int, 0 ≤ j → j < cfg.NPORT →
      (port_init cfg ports j).head = 0 ∧ (port_init cfg ports j).tail = 0 ∧
      (port_init cfg ports j).count = 0) ∧
    ((port_init cfg ports cfg.PORT_CONSOLEIN).free = false ∧
      (port_init cfg ports cfg.PORT_CONSOLEIN).type = PortType.KERNEL) ∧
    ((port_init cfg ports cfg.PORT_CONSOLEOUT).free = false ∧
      (port_init cfg ports cfg.PORT_CONSOLEOUT).type = PortType.KERNEL) ∧
    ((port_init cfg ports cfg.PORT_DISKCMD).free = false ∧
      (port_init cfg ports cfg.PORT_DISKCMD).type = PortType.KERNEL) ∧
    (∀ j : Int, 0 ≤ j → j < cfg.NPORT →
      j ≠ cfg.PORT_CONSOLEIN → j ≠ cfg.PORT_CONSOLEOUT → j ≠ cfg.PORT_DISKCMD →
      (port_init cfg ports j).free = true ∧ (port_init cfg ports j).owner = 0 ∧
      (port_init cfg ports j).type = PortType.FREE) ∧
    port_init cfg (port_init cfg ports) = port_init cfg ports := by
  refine ⟨fun j j0 j1 => ?_, port_init_reserved cfg ports _ (Or.inl rfl),
    port_init_reserved cfg ports _ (Or.inr (Or.inl rfl)),
    port_init_reserved cfg ports _ (Or.inr (Or.inr rfl)), fun j j0 j1 n1 n2 n3 => ?_, ?_⟩
  · obtain ⟨a, b, c, -⟩ := port_init_in_range cfg ports j j0 j1
    exact ⟨a, b, c⟩
  · obtain ⟨-, -, -, d, -, e⟩ := port_init_in_range cfg ports j j0 j1
    have hnr : ¬ (j = cfg.PORT_CONSOLEIN ∨ j = cfg.PORT_CONSOLEOUT ∨ j = cfg.PORT_DISKCMD) := by
      rintro (h | h | h)
      · exact n1 h
      · exact n2 h
      · exact n3 h
    exact ⟨(e hnr).1, d, (e hnr).2⟩
  · funext j
    rw [port_init_apply cfg (port_init cfg ports) j,
      port_init_loop_apply cfg _ _ (port_init cfg ports) (by simp) j,
      port_init_apply cfg ports j, port_init_loop_apply cfg _ _ ports (by simp) j]
    split_ifs <;> rfl

/-- C16. Negative requested port, evaluated on the code: on the initialised
four-port table, whose port 3 is free, `port_acquire (-2, 7)` returns -1 and
leaves port 3 free, whereas `port_acquire (-1, 7)` allocates port 3.  The
header comment of `port_acquire` promises the allocation for every negative
number; the code tests `port != -1`. -/
theorem C16_negative_request_fails :
    (port_acquire cfg5 (port_init cfg5 blank_table) (-2) 7).2 = -1 ∧
    ((port_acquire cfg5 (port_init cfg5 blank_table) (-2) 7).1 3).free = true ∧
    (port_acquire cfg5 (port_init cfg5 blank_table) (-1) 7).2 = 3 ∧
    ((port_acquire cfg5 (port_init cfg5 blank_table) (-1) 7).1 3).free = false := by
  decide

/-! ## Positions and cells along the loops -/

theorem advance_emod (S t : Int) (hS : S < 2147483648) (h0 : 0 ≤ t) (h1 : t < S) :
    (wrap_int (t + 1)).tmod S = (t + 1) % S := by
  rw [wrap_int_of_range _ (by omega) (by omega), Int.tmod_eq_emod (by omega) (by omega)]

/-- On a port that satisfies the ring-buffer invariant and is not full, the
cells of the stored bytes are all different from the cell at `tail`. -/
theorem ring_cell_ne_tail (cfg : PortConfig) (p : port) (hinv : ring_inv cfg p)
    (hc : p.count < cfg.PORT_BUF_SIZE) (i : Int) (i0 : 0 ≤ i) (i1 : i < p.count) :
    (p.head + i) % cfg.PORT_BUF_SIZE ≠ p.tail := by
  obtain ⟨c0, c1, h0, h1, t0, t1, ht⟩ := hinv
  rw [ht, emod_small (p.head + p.count) cfg.PORT_BUF_SIZE (by omega) (by omega),
    emod_small (p.head + i) cfg.PORT_BUF_SIZE (by omega) (by omega)]
  split_ifs <;> omega

/-- The write loop advances `tail` by the number of bytes it takes, modulo the
capacity. -/
theorem port_write_loop_tail (cfg : PortConfig) (buf : Int → CChar) (n : Int)
    (hS : cfg.PORT_BUF_SIZE < 2147483648) :
    ∀ (fuel : Nat) (p : port) (written : Int), 0 ≤ p.tail → p.tail < cfg.PORT_BUF_SIZE →
      (port_write_loop cfg buf n fuel p written).1.tail =
        (p.tail + ((port_write_loop cfg buf n fuel p written).2 - written)) %
          cfg.PORT_BUF_SIZE := by
  intro fuel
  induction fuel with
  | zero =>
    intro p written t0 t1
    simp only [port_write_loop, sub_self, add_zero]
    exact (Int.emod_eq_of_lt t0 t1).symm
  | succ fuel ih =>
    intro p written t0 t1
    rw [port_write_loop_succ]
    split_ifs with h
    · have ht : (write_byte cfg p (buf written)).tail = (p.tail + 1) % cfg.PORT_BUF_SIZE :=
        advance_emod cfg.PORT_BUF_SIZE p.tail hS t0 t1
      have hpos : 0 < cfg.PORT_BUF_SIZE := by omega
      rw [ih (write_byte cfg p (buf written)) (written + 1)
        (by rw [ht]; exact Int.emod_nonneg _ (by omega))
        (by rw [ht]; exact Int.emod_lt_of_pos _ hpos), ht, Int.emod_add_emod]
      congr 1
      ring
    · simp only [sub_self, add_zero]
      exact (Int.emod_eq_of_lt t0 t1).symm

/-- The write loop on a port that satisfies the ring-buffer invariant stores
into none of the cells that hold the bytes not yet read. -/
theorem port_write_loop_keeps (cfg : PortConfig) (buf : Int → CChar) (n : Int)
    (hS : cfg.PORT_BUF_SIZE < 2147483648) :
    ∀ (fuel : Nat) (p : port) (written : Int), ring_inv cfg p →
      ∀ i : Int, 0 ≤ i → i < p.count →
        (port_write_loop cfg buf n fuel p written).1.buffer
            ((p.head + i) % cfg.PORT_BUF_SIZE) =
          p.buffer ((p.head + i) % cfg.PORT_BUF_SIZE) := by
  intro fuel
  induction fuel with
  | zero => intro p written _ i _ _; rfl
  | succ fuel ih =>
    intro p written hinv i i0 i1
    rw [port_write_loop_succ]
    split_ifs with h
    · have hr := (write_byte_ring cfg p (buf written) hS hinv h.2).1
      have hc : (write_byte cfg p (buf written)).count = p.count + 1 := rfl
      have hh : (write_byte cfg p (buf written)).head = p.head := rfl
      have e := ih (write_byte cfg p (buf written)) (written + 1) hr i i0 (by omega)
      rw [hh] at e
      rw [e]
      exact Function.update_noteq (ring_cell_ne_tail cfg p hinv h.2 i i0 i1) _ _
    · rfl

/-- The read loop advances `head` by the number of bytes it delivers, modulo
the capacity. -/
theorem port_read_loop_head (cfg : PortConfig) (n : Int)
    (hS : cfg.PORT_BUF_SIZE < 2147483648) :
    ∀ (fuel : Nat) (p : port) (buf : Int → CChar) (read : Int),
      0 ≤ p.head → p.head < cfg.PORT_BUF_SIZE →
      (port_read_loop cfg n fuel p buf read).1.head =
        (p.head + ((port_read_loop cfg n fuel p buf read).2.2 - read)) %
          cfg.PORT_BUF_SIZE := by
  intro fuel
  induction fuel with
  | zero =>
    intro p buf read t0 t1
    simp only [port_read_loop, sub_self, add_zero]
    exact (Int.emod_eq_of_lt t0 t1).symm
  | succ fuel ih =>
    intro p buf read t0 t1
    rw [port_read_loop_succ]
    split_ifs with h
    · have ht : (read_byte cfg p).head = (p.head + 1) % cfg.PORT_BUF_SIZE :=
        advance_emod cfg.PORT_BUF_SIZE p.head hS t0 t1
      have hpos : 0 < cfg.PORT_BUF_SIZE := by omega
      rw [ih (read_byte cfg p) _ (read + 1)
        (by rw [ht]; exact Int.emod_nonneg _ (by omega))
        (by rw [ht]; exact Int.emod_lt_of_pos _ hpos), ht, Int.emod_add_emod]
      congr 1
      ring
    · simp only [sub_self, add_zero]
      exact (Int.emod_eq_of_lt t0 t1).symm

/-- C17. Write appends without overwriting: for a port in range that is not
free, satisfies the ring-buffer invariant and has the logical contents `Q`,
and for every `n` (so every `n ≥ 0`), after `port_write` returning `k` the
logical contents are `Q` followed by the first `k` bytes of the data, `head`
is as it was, `tail` is the old `tail` plus `k` modulo `PORT_BUF_SIZE`, and no
cell holding a byte of `Q` has been stored into. -/
theorem C17_write_appends (cfg : PortConfig) (hS : cfg.PORT_BUF_SIZE < 2147483648)
    (ports : Table) (p : Int) (buf : Int → CChar) (n : Int) (h0 : 0 ≤ p) (h1 : p < cfg.NPORT)
    (hopen : (ports p).free = false) (hinv : ring_inv cfg (ports p)) :
    contents cfg ((port_write cfg ports p buf n).1 p) =
      contents cfg (ports p) ++ bytes_from buf 0 (port_write cfg ports p buf n).2 ∧
    ((port_write cfg ports p buf n).1 p).head = (ports p).head ∧
    ((port_write cfg ports p buf n).1 p).tail =
      ((ports p).tail + (port_write cfg ports p buf n).2) % cfg.PORT_BUF_SIZE ∧
    ∀ i : Int, 0 ≤ i → i < (ports p).count →
      ((port_write cfg ports p buf n).1 p).buffer (((ports p).head + i) % cfg.PORT_BUF_SIZE) =
        (ports p).buffer (((ports p).head + i) % cfg.PORT_BUF_SIZE) := by
  obtain ⟨-, -, -, -, -, w6⟩ := port_write_loop_count cfg buf n n.toNat (ports p) 0 (by simp)
  obtain ⟨-, -, wr3⟩ := port_write_loop_ring cfg buf n hS n.toNat (ports p) 0 hinv
  have wt := port_write_loop_tail cfg buf n hS n.toNat (ports p) 0 hinv.2.2.2.2.1
    hinv.2.2.2.2.2.1
  have wk := port_write_loop_keeps cfg buf n hS n.toNat (ports p) 0 hinv
  rw [port_write_open cfg ports p buf n h0 h1 hopen]
  simp only [Function.update_same]
  rw [sub_zero] at wr3 wt
  exact ⟨wr3, w6, wt, wk⟩

/-- Witness of C17: three of five sample bytes are appended to the two bytes of
port 3 of the sample table. -/
theorem C17_write_appends_witness :
    cfg5.PORT_BUF_SIZE < 2147483648 ∧ (0 : Int) ≤ 3 ∧ (3 : Int) < cfg5.NPORT ∧
    (sample_table 3).free = false ∧ ring_inv cfg5 (sample_table 3) ∧
    contents cfg5 ((port_write cfg5 sample_table 3 sample_data 5).1 3) =
      contents cfg5 (sample_table 3) ++
        bytes_from sample_data 0 (port_write cfg5 sample_table 3 sample_data 5).2 :=
  ⟨by decide, by decide, by decide, by decide, by decide,
    (C17_write_appends cfg5 (by decide) sample_table 3 sample_data 5 (by decide) (by decide)
      (by decide) (by decide)).1⟩

/-- C18. Read consumes the oldest bytes: for a port in range that is not free,
satisfies the ring-buffer invariant and has the logical contents `Q`, and for
every `n` (so every `n ≥ 0`), after `port_read` returning `k` the first `k`
positions of the destination hold the first `k` bytes of `Q` in order, the
logical contents of the port are `Q` without its first `k` bytes, `head` is
the old `head` plus `k` modulo `PORT_BUF_SIZE`, and `tail` and the buffer
array are as they were. -/
theorem C18_read_consumes (cfg : PortConfig) (hS : cfg.PORT_BUF_SIZE < 2147483648)
    (ports : Table) (p : Int) (buf : Int → CChar) (n : Int) (h0 : 0 ≤ p) (h1 : p < cfg.NPORT)
    (hopen : (ports p).free = false) (hinv : ring_inv cfg (ports p)) :
    bytes_from (port_read cfg ports p buf n).2.1 0 (port_read cfg ports p buf n).2.2 =
      (contents cfg (ports p)).take (port_read cfg ports p buf n).2.2.toNat ∧
    contents cfg ((port_read cfg ports p buf n).1 p) =
      (contents cfg (ports p)).drop (port_read cfg ports p buf n).2.2.toNat ∧
    ((port_read cfg ports p buf n).1 p).head =
      ((ports p).head + (port_read cfg ports p buf n).2.2) % cfg.PORT_BUF_SIZE ∧
    ((port_read cfg ports p buf n).1 p).tail = (ports p).tail ∧
    ((port_read cfg ports p buf n).1 p).buffer = (ports p).buffer := by
  obtain ⟨-, -, -, -, -, r6, r7⟩ :=
    port_read_loop_count cfg n n.toNat (ports p) buf 0 (by simp)
  obtain ⟨-, -, rr3⟩ := port_read_loop_ring cfg n hS n.toNat (ports p) buf 0 hinv
  have rh := port_read_loop_head cfg n hS n.toNat (ports p) buf 0 hinv.2.2.1 hinv.2.2.2.1
  rw [port_read_open cfg ports p buf n h0 h1 hopen]
  simp only [Function.update_same]
  rw [sub_zero] at rr3 rh
  refine ⟨?_, ?_, rh, r6, r7⟩
  · rw [rr3]
    exact (List.take_left' (bytes_from_length _ _ _)).symm
  · rw [rr3]
    exact (List.drop_left' (bytes_from_length _ _ _)).symm

/-- Witness of C18: a read of four bytes takes the two bytes of port 3 of the
sample table. -/
theorem C18_read_consumes_witness :
    cfg5.PORT_BUF_SIZE < 2147483648 ∧ (0 : Int) ≤ 3 ∧ (3 : Int) < cfg5.NPORT ∧
    (sample_table 3).free = false ∧ ring_inv cfg5 (sample_table 3) ∧
    bytes_from (port_read cfg5 sample_table 3 (fun _ => 0) 4).2.1 0
        (port_read cfg5 sample_table 3 (fun _ => 0) 4).2.2 =
      (contents cfg5 (sample_table 3)).take
        (port_read cfg5 sample_table 3 (fun _ => 0) 4).2.2.toNat :=
  ⟨by decide, by decide, by decide, by decide, by decide,
    (C18_read_consumes cfg5 (by decide) sample_table 3 (fun _ => 0) 4 (by decide) (by decide)
      (by decide) (by decide)).1⟩

/-- C15. Wraparound correctness: for a port in range that is not free and has
`head = tail = 0` and `count = 0`, writing exactly `PORT_BUF_SIZE` bytes
returns `PORT_BUF_SIZE` and leaves `count = PORT_BUF_SIZE` with `tail` wrapped
back to 0 and `head` still 0; a following read of one byte returns 1, delivers
the first byte written, and leaves `count = PORT_BUF_SIZE - 1` and
`head = 1 mod PORT_BUF_SIZE`. -/
theorem C15_wraparound (cfg : PortConfig) (hpos : 0 < cfg.PORT_BUF_SIZE)
    (hS : cfg.PORT_BUF_SIZE < 2147483648) (ports : Table) (p : Int) (buf : Int → CChar)
    (dest : Int → CChar) (h0 : 0 ≤ p) (h1 : p < cfg.NPORT) (hopen : (ports p).free = false)
    (hh : (ports p).head = 0) (ht : (ports p).tail = 0) (hc : (ports p).count = 0) :
    (port_write cfg ports p buf cfg.PORT_BUF_SIZE).2 = cfg.PORT_BUF_SIZE ∧
    ((port_write cfg ports p buf cfg.PORT_BUF_SIZE).1 p).count = cfg.PORT_BUF_SIZE ∧
    ((port_write cfg ports p buf cfg.PORT_BUF_SIZE).1 p).tail = 0 ∧
    ((port_write cfg ports p buf cfg.PORT_BUF_SIZE).1 p).head = 0 ∧
    (port_read cfg (port_write cfg ports p buf cfg.PORT_BUF_SIZE).1 p dest 1).2.2 = 1 ∧
    (port_read cfg (port_write cfg ports p buf cfg.PORT_BUF_SIZE).1 p dest 1).2.1 0 = buf 0 ∧
    ((port_read cfg (port_write cfg ports p buf cfg.PORT_BUF_SIZE).1 p dest 1).1 p).count =
      cfg.PORT_BUF_SIZE - 1 ∧
    ((port_read cfg (port_write cfg ports p buf cfg.PORT_BUF_SIZE).1 p dest 1).1 p).head =
      1 % cfg.PORT_BUF_SIZE := by
  have hinv : ring_inv cfg (ports p) := ring_inv_of_zero cfg hpos _ hh ht hc
  obtain ⟨w1, w2, w3, -, -, w6⟩ := port_write_loop_count cfg buf cfg.PORT_BUF_SIZE
    cfg.PORT_BUF_SIZE.toNat (ports p) 0 (by simp)
  obtain ⟨wr1, -, wr3⟩ := port_write_loop_ring cfg buf cfg.PORT_BUF_SIZE hS
    cfg.PORT_BUF_SIZE.toNat (ports p) 0 hinv
  have wt := port_write_loop_tail cfg buf cfg.PORT_BUF_SIZE hS cfg.PORT_BUF_SIZE.toNat
    (ports p) 0 (by omega) (by omega)
  rw [port_write_open cfg ports p buf cfg.PORT_BUF_SIZE h0 h1 hopen]
  set r := port_write_loop cfg buf cfg.PORT_BUF_SIZE cfg.PORT_BUF_SIZE.toNat (ports p) 0 with hr
  have hk : r.2 = cfg.PORT_BUF_SIZE := by omega
  have hcount : r.1.count = cfg.PORT_BUF_SIZE := by omega
  have htail : r.1.tail = 0 := by
    rw [wt, ht, hk]
    simp
  have hhead : r.1.head = 0 := by rw [w6, hh]
  have hcont : contents cfg r.1 = buf 0 :: bytes_from buf (0 + 1) (cfg.PORT_BUF_SIZE - 1) := by
    have e : contents cfg (ports p) = [] := by simp [contents, hc]
    rw [wr3, e, List.nil_append, sub_zero, hk, bytes_from_cons buf 0 _ hpos]
  have hfree : (Function.update ports p r.1 p).free = false := by
    rw [Function.update_same, w3, hopen]
  rw [port_read_open cfg (Function.update ports p r.1) p dest 1 h0 h1 hfree]
  simp only [Function.update_same]
  obtain ⟨k1, k2, -⟩ := port_read_loop_count cfg 1 (1 : Int).toNat r.1 dest 0 (by simp)
  obtain ⟨-, -, rr3⟩ := port_read_loop_ring cfg 1 hS (1 : Int).toNat r.1 dest 0 wr1
  have rh := port_read_loop_head cfg 1 hS (1 : Int).toNat r.1 dest 0 (by omega) (by omega)
  set t := port_read_loop cfg 1 (1 : Int).toNat r.1 dest 0 with ht'
  have hk2 : t.2.2 = 1 := by omega
  refine ⟨hk, hcount, htail, hhead, hk2, ?_, by omega, ?_⟩
  · rw [hcont, sub_zero, hk2, bytes_from_cons _ 0 1 (by decide)] at rr3
    exact (List.cons.inj rr3).1.symm
  · rw [rh, hhead, hk2]
    simp

/-- Witness of C15, the walkthrough at the head of `port.c` with capacity 5:
process 7 is given port 3 of the initialised table; writing 5, 7, 2, 12, 3
gives `count = 5`; reading one byte yields 5 and leaves `count = 4`,
`head = 1`. -/
theorem C15_wraparound_witness :
    0 < cfg5.PORT_BUF_SIZE ∧ cfg5.PORT_BUF_SIZE < 2147483648 ∧ (0 : Int) ≤ 3 ∧
    (3 : Int) < cfg5.NPORT ∧
    ((port_acquire cfg5 (port_init cfg5 blank_table) (-1) 7).1 3).free = false ∧
    ((port_acquire cfg5 (port_init cfg5 blank_table) (-1) 7).1 3).head = 0 ∧
    ((port_acquire cfg5 (port_init cfg5 blank_table) (-1) 7).1 3).tail = 0 ∧
    ((port_acquire cfg5 (port_init cfg5 blank_table) (-1) 7).1 3).count = 0 ∧
    sample_data 0 = 5 ∧
    (port_write cfg5 (port_acquire cfg5 (port_init cfg5 blank_table) (-1) 7).1 3
      sample_data 5).2 = 5 ∧
    ((port_write cfg5 (port_acquire cfg5 (port_init cfg5 blank_table) (-1) 7).1 3
      sample_data 5).1 3).count = 5 ∧
    (port_read cfg5 (port_write cfg5 (port_acquire cfg5 (port_init cfg5 blank_table) (-1) 7).1 3
      sample_data 5).1 3 (fun _ => 0) 1).2.1 0 = sample_data 0 ∧
    ((port_read cfg5 (port_write cfg5 (port_acquire cfg5 (port_init cfg5 blank_table) (-1) 7).1
      3 sample_data 5).1 3 (fun _ => 0) 1).1 3).count = 5 - 1 ∧
    ((port_read cfg5 (port_write cfg5 (port_acquire cfg5 (port_init cfg5 blank_table) (-1) 7).1
      3 sample_data 5).1 3 (fun _ => 0) 1).1 3).head = 1 % 5 :=
  ⟨by decide, by decide, by decide, by decide, by decide, by decide, by decide, by decide,
    by decide,
    (C15_wraparound cfg5 (by decide) (by decide)
      (port_acquire cfg5 (port_init cfg5 blank_table) (-1) 7).1 3 sample_data (fun _ => 0)
      (by decide) (by decide) (by decide) (by decide) (by decide) (by decide)).1,
    (C15_wraparound cfg5 (by decide) (by decide)
      (port_acquire cfg5 (port_init cfg5 blank_table) (-1) 7).1 3 sample_data (fun _ => 0)
      (by decide) (by decide) (by decide) (by decide) (by decide) (by decide)).2.1,
    (C15_wraparound cfg5 (by decide) (by decide)
      (port_acquire cfg5 (port_init cfg5 blank_table) (-1) 7).1 3 sample_data (fun _ => 0)
      (by decide) (by decide) (by decide) (by decide) (by decide) (by decide)).2.2.2.2.2.1,
    (C15_wraparound cfg5 (by decide) (by decide)
      (port_acquire cfg5 (port_init cfg5 blank_table) (-1) 7).1 3 sample_data (fun _ => 0)
      (by decide) (by decide) (by decide) (by decide) (by decide) (by decide)).2.2.2.2.2.2.1,
    (C15_wraparound cfg5 (by decide) (by decide)
      (port_acquire cfg5 (port_init cfg5 blank_table) (-1) 7).1 3 sample_data (fun _ => 0)
      (by decide) (by decide) (by decide) (by decide) (by decide) (by decide)).2.2.2.2.2.2.2⟩

/-! ## Ports other than the one addressed -/

theorem port_write_other (cfg : PortConfig) (ports : Table) (port : Int) (buf : Int → CChar)
    (n : Int) (q : Int) (hq : q ≠ port) : (port_write cfg ports port buf n).1 q = ports q := by
  by_cases hc : (port < 0 ∨ port ≥ cfg.NPORT) ∨ (ports port).free = true
  · rw [port_write_closed cfg ports port buf n hc]
  · rw [port_write_open cfg ports port buf n (by omega) (by omega)
      (by simpa using fun hf => hc (Or.inr hf))]
    exact Function.update_noteq hq _ _

theorem port_read_other (cfg : PortConfig) (ports : Table) (port : Int) (buf : Int → CChar)
    (n : Int) (q : Int) (hq : q ≠ port) : (port_read cfg ports port buf n).1 q = ports q := by
  by_cases hc : (port < 0 ∨ port ≥ cfg.NPORT) ∨ (ports port).free = true
  · rw [port_read_closed cfg ports port buf n hc]
  · rw [port_read_open cfg ports port buf n (by omega) (by omega)
      (by simpa using fun hf => hc (Or.inr hf))]
    exact Function.update_noteq hq _ _

/-- A free port is left as it is by `port_write` and `port_read`, whatever port
they address. -/
theorem port_write_free (cfg : PortConfig) (ports : Table) (port : Int) (buf : Int → CChar)
    (n : Int) (j : Int) (hf : (ports j).free = true) :
    (port_write cfg ports port buf n).1 j = ports j := by
  by_cases hj : j = port
  · subst hj
    rw [port_write_closed cfg ports j buf n (Or.inr hf)]
  · exact port_write_other cfg ports port buf n j hj

theorem port_read_free (cfg : PortConfig) (ports : Table) (port : Int) (buf : Int → CChar)
    (n : Int) (j : Int) (hf : (ports j).free = true) :
    (port_read cfg ports port buf n).1 j = ports j := by
  by_cases hj : j = port
  · subst hj
    rw [port_read_closed cfg ports j buf n (Or.inr hf)]
  · exact port_read_other cfg ports port buf n j hj

/-! ## Free ports along a run -/

theorem port_init_free_inv (cfg : PortConfig) (ports : Table) :
    free_inv cfg (port_init cfg ports) := by
  intro j j0 j1 hf
  obtain ⟨a, b, c, d, -, e⟩ := port_init_in_range cfg ports j j0 j1
  refine ⟨c, a, b, d, ?_⟩
  by_cases hr : j = cfg.PORT_CONSOLEIN ∨ j = cfg.PORT_CONSOLEOUT ∨ j = cfg.PORT_DISKCMD
  · have := (port_init_reserved cfg ports j hr).1
    rw [hf] at this
    exact Bool.noConfusion this
  · exact (e hr).2

/-- Each operation keeps the free ports empty and reset. -/
theorem step_free_inv (cfg : PortConfig) (ports : Table) (op : Op)
    (h : free_inv cfg ports) : free_inv cfg (step cfg ports op) := by
  cases op with
  | init => exact port_init_free_inv cfg ports
  | acquire port proc_id =>
    simp only [step]
    rcases port_acquire_cases cfg ports port proc_id with e | ⟨k, -, -, -, -, e⟩
    · rw [e]; exact h
    · rw [e]
      intro j j0 j1
      by_cases hj : j = k
      · subst hj
        simp only [Function.update_same]
        intro hf
        exact Bool.noConfusion hf
      · simp only [Function.update_noteq hj]
        exact h j j0 j1
  | close port =>
    simp only [step]
    rw [port_close_eq]
    split_ifs
    · exact h
    · intro j j0 j1
      by_cases hj : j = port
      · subst hj
        simp only [Function.update_same]
        intro _
        exact ⟨rfl, rfl, rfl, rfl, rfl⟩
      · simp only [Function.update_noteq hj]
        exact h j j0 j1
  | write port buf n =>
    intro j j0 j1 hf
    simp only [step] at hf ⊢
    have hf0 : (ports j).free = true := by
      rw [← (port_write_fields cfg ports port buf n j).1]; exact hf
    rw [port_write_free cfg ports port buf n j hf0]
    exact h j j0 j1 hf0
  | read port buf n =>
    intro j j0 j1 hf
    simp only [step] at hf ⊢
    have hf0 : (ports j).free = true := by
      rw [← (port_read_fields cfg ports port buf n j).1]; exact hf
    rw [port_read_free cfg ports port buf n j hf0]
    exact h j j0 j1 hf0

theorem run_free_inv (cfg : PortConfig) (ops : List Op) :
    ∀ ports : Table, free_inv cfg ports → free_inv cfg (run cfg ports ops) := by
  induction ops with
  | nil => intro ports h; exact h
  | cons op ops ih =>
    intro ports h
    exact ih _ (step_free_inv cfg ports op h)

/-- Allocating and then closing a port that is free, empty and reset gives the
table back. -/
theorem acquire_close_restores (cfg : PortConfig) (ports : Table) (p : Int) (o : Int)
    (p0 : 0 ≤ p) (p1 : p < cfg.NPORT) (hf : (ports p).free = true)
    (hz : (ports p).count = 0 ∧ (ports p).head = 0 ∧ (ports p).tail = 0 ∧
      (ports p).owner = 0 ∧ (ports p).type = PortType.FREE) :
    port_close cfg (port_acquire cfg ports p o).1 p = ports := by
  obtain ⟨z1, z2, z3, z4, z5⟩ := hz
  have ha : ¬ ((p < 0 ∨ p ≥ cfg.NPORT) ∨ (ports p).type = PortType.KERNEL ∨
      (ports p).free = false) := by
    rw [z5, hf]
    rintro (h | h | h)
    · omega
    · exact PortType.noConfusion h
    · exact Bool.noConfusion h
  rw [port_acquire_concrete cfg ports p o (by omega), if_neg ha, port_close_eq]
  have hcl : ¬ ((p < 0 ∨ p ≥ cfg.NPORT) ∨
      (Function.update ports p (acquired_port (ports p) o) p).free = true ∨
      (Function.update ports p (acquired_port (ports p) o) p).type = PortType.KERNEL) := by
    rw [Function.update_same]
    rintro (h | h | h)
    · omega
    · exact Bool.noConfusion h
    · have : (acquired_port (ports p) o).type = PortType.FREE := z5
      rw [this] at h
      exact PortType.noConfusion h
  simp only
  rw [if_neg hcl, Function.update_same, Function.update_idem]
  have hback : closed_port (acquired_port (ports p) o) = ports p := by
    cases hq : ports p with
    | mk f ow ty hd tl c b =>
      rw [hq] at hf z1 z2 z3 z4 z5
      simp only at hf z1 z2 z3 z4 z5
      subst hf z1 z2 z3 z4 z5
      rfl
  rw [hback, Function.update_eq_self]

/-- C19. Free ports are always empty and reset: in every state reached from
`port_init` by any sequence of operations, every port of the table with `free`
set has `count = 0`, `head = 0`, `tail = 0`, owner 0 and type FREE; hence the
port a successful `port_acquire` allocates held no byte before the reset, and
`port_acquire (p, o)` followed by `port_close (p)` on a free port `p` gives
back exactly the table. -/
theorem C19_free_ports_reset (cfg : PortConfig) (ports0 : Table) (ops : List Op) :
    (∀ j : Int, 0 ≤ j → j < cfg.NPORT →
      (run cfg (port_init cfg ports0) ops j).free = true →
      (run cfg (port_init cfg ports0) ops j).count = 0 ∧
      (run cfg (port_init cfg ports0) ops j).head = 0 ∧
      (run cfg (port_init cfg ports0) ops j).tail = 0 ∧
      (run cfg (port_init cfg ports0) ops j).owner = 0 ∧
      (run cfg (port_init cfg ports0) ops j).type = PortType.FREE) ∧
    (∀ id owner : Int,
      (port_acquire cfg (run cfg (port_init cfg ports0) ops) id owner).2 ≠ -1 →
      (run cfg (port_init cfg ports0) ops
        (port_acquire cfg (run cfg (port_init cfg ports0) ops) id owner).2).count = 0 ∧
      contents cfg (run cfg (port_init cfg ports0) ops
        (port_acquire cfg (run cfg (port_init cfg ports0) ops) id owner).2) = []) ∧
    (∀ p o : Int, 0 ≤ p → p < cfg.NPORT →
      (run cfg (port_init cfg ports0) ops p).free = true →
      port_close cfg (port_acquire cfg (run cfg (port_init cfg ports0) ops) p o).1 p =
        run cfg (port_init cfg ports0) ops) := by
  have hinv := run_free_inv cfg ops (port_init cfg ports0) (port_init_free_inv cfg ports0)
  refine ⟨hinv, fun id owner hne => ?_, fun p o p0 p1 hf => ?_⟩
  · rcases port_acquire_cases cfg (run cfg (port_init cfg ports0) ops) id owner with
      e | ⟨k, k0, k1, kf, -, e⟩
    · rw [e] at hne
      exact absurd rfl hne
    · rw [e]
      have hc := (hinv k k0 k1 kf).1
      exact ⟨hc, by simp [contents, hc]⟩
  · exact acquire_close_restores cfg _ p o p0 p1 hf (hinv p p0 p1 hf)

/-! ## What an operation on a port depends on -/

/-- The value `port_write` returns and the record it leaves at the addressed
port depend on the table only through that port. -/
theorem port_write_local (cfg : PortConfig) (ports ports2 : Table) (q : Int)
    (buf : Int → CChar) (n : Int) (h : ports2 q = ports q) :
    (port_write cfg ports2 q buf n).2 = (port_write cfg ports q buf n).2 ∧
    (port_write cfg ports2 q buf n).1 q = (port_write cfg ports q buf n).1 q := by
  unfold port_write
  rw [h]
  split_ifs
  · exact ⟨rfl, h⟩
  · exact ⟨rfl, h⟩
  · simp [Function.update_same]

/-- The value `port_read` returns, the destination it fills and the record it
leaves at the addressed port depend on the table only through that port. -/
theorem port_read_local (cfg : PortConfig) (ports ports2 : Table) (q : Int)
    (buf : Int → CChar) (n : Int) (h : ports2 q = ports q) :
    (port_read cfg ports2 q buf n).2 = (port_read cfg ports q buf n).2 ∧
    (port_read cfg ports2 q buf n).1 q = (port_read cfg ports q buf n).1 q := by
  unfold port_read
  rw [h]
  split_ifs
  · exact ⟨rfl, h⟩
  · exact ⟨rfl, h⟩
  · simp [Function.update_same]

/-- The record `port_close` leaves at the addressed port depends on the table
only through that port. -/
theorem port_close_local (cfg : PortConfig) (ports ports2 : Table) (q : Int)
    (h : ports2 q = ports q) : port_close cfg ports2 q q = port_close cfg ports q q := by
  rw [port_close_eq, port_close_eq, h]
  split_ifs
  · exact h
  · simp only [Function.update_same]

/-- The number the scan of `port_acquire` returns depends on the table only
through the `free` flags and the types. -/
theorem port_acquire_scan_congr (cfg : PortConfig) (proc_id : Int) (ports ports2 : Table)
    (h : ∀ j : Int, (ports2 j).free = (ports j).free ∧ (ports2 j).type = (ports j).type) :
    ∀ (fuel : Nat) (i : Int),
      (port_acquire_scan cfg proc_id fuel i ports2).2 =
        (port_acquire_scan cfg proc_id fuel i ports).2 := by
  intro fuel
  induction fuel with
  | zero => intro i; rfl
  | succ fuel ih =>
    intro i
    rw [port_acquire_scan_succ, port_acquire_scan_succ, (h i).1, (h i).2]
    split_ifs
    · exact ih (i + 1)
    · exact ih (i + 1)
    · rfl
    · rfl

/-- The number `port_acquire` returns depends on the table only through the
`free` flags and the types. -/
theorem port_acquire_congr (cfg : PortConfig) (ports ports2 : Table) (port : Int)
    (proc_id : Int)
    (h : ∀ j : Int, (ports2 j).free = (ports j).free ∧ (ports2 j).type = (ports j).type) :
    (port_acquire cfg ports2 port proc_id).2 = (port_acquire cfg ports port proc_id).2 := by
  unfold port_acquire
  rw [(h port).1, (h port).2]
  split_ifs
  · rfl
  · rfl
  · rfl
  · rfl
  · exact port_acquire_scan_congr cfg proc_id ports ports2 h _ _

/-- Traffic on port `p` leaves every other port as it was, and the `free`
flag, the owner and the type of every port as they were. -/
theorem run_traffic (cfg : PortConfig) (p : Int) (ops : List Op) :
    ∀ ports : Table, (∀ op ∈ ops, traffic_on p op) →
      (∀ q : Int, q ≠ p → run cfg ports ops q = ports q) ∧
      (∀ j : Int, (run cfg ports ops j).free = (ports j).free ∧
        (run cfg ports ops j).owner = (ports j).owner ∧
        (run cfg ports ops j).type = (ports j).type) := by
  induction ops with
  | nil => intro ports _; exact ⟨fun _ _ => rfl, fun _ => ⟨rfl, rfl, rfl⟩⟩
  | cons op ops ih =>
    intro ports hops
    have hop := hops op (List.mem_cons_self _ _)
    obtain ⟨i1, i2⟩ := ih (step cfg ports op) (fun o ho => hops o (List.mem_cons_of_mem _ ho))
    have hstep : (∀ q : Int, q ≠ p → step cfg ports op q = ports q) ∧
        (∀ j : Int, (step cfg ports op j).free = (ports j).free ∧
          (step cfg ports op j).owner = (ports j).owner ∧
          (step cfg ports op j).type = (ports j).type) := by
      cases op with
      | init => exact absurd hop id
      | acquire a b => exact absurd hop id
      | close a => exact absurd hop id
      | write a buf n =>
        have ha : a = p := hop
        subst ha
        exact ⟨fun q hq => port_write_other cfg ports a buf n q hq,
          fun j => port_write_fields cfg ports a buf n j⟩
      | read a buf n =>
        have ha : a = p := hop
        subst ha
        exact ⟨fun q hq => port_read_other cfg ports a buf n q hq,
          fun j => port_read_fields cfg ports a buf n j⟩
    refine ⟨fun q hq => ?_, fun j => ?_⟩
    · show run cfg (step cfg ports op) ops q = ports q
      rw [i1 q hq, hstep.1 q hq]
    · show (run cfg (step cfg ports op) ops j).free = (ports j).free ∧
        (run cfg (step cfg ports op) ops j).owner = (ports j).owner ∧
        (run cfg (step cfg ports op) ops j).type = (ports j).type
      obtain ⟨a, b, c⟩ := i2 j
      obtain ⟨a2, b2, c2⟩ := hstep.2 j
      exact ⟨a.trans a2, b.trans b2, c.trans c2⟩

/-! ## The transfers with and without the bounds of the buffer -/

theorem port_write_loop_checked_succ (cfg : PortConfig) (buf : Int → CChar) (n : Int)
    (fuel : Nat) (p : port) (written : Int) :
    port_write_loop_checked cfg buf n (fuel + 1) p written =
      if written < n ∧ p.count < cfg.PORT_BUF_SIZE then
        if 0 ≤ p.tail ∧ p.tail < cfg.PORT_BUF_SIZE then
          port_write_loop_checked cfg buf n fuel (write_byte cfg p (buf written)) (written + 1)
        else none
      else some (p, written) := rfl

theorem port_read_loop_checked_succ (cfg : PortConfig) (n : Int) (fuel : Nat)
    (p : port) (buf : Int → CChar) (read : Int) :
    port_read_loop_checked cfg n (fuel + 1) p buf read =
      if read < n ∧ p.count > 0 then
        if 0 ≤ p.head ∧ p.head < cfg.PORT_BUF_SIZE then
          port_read_loop_checked cfg n fuel (read_byte cfg p)
            (Function.update buf read (p.buffer p.head)) (read + 1)
        else none
      else some (p, buf, read) := rfl

/-- When the guard of the write loop is false at entry no store is made, and
the loop is defined whatever `tail` is. -/
theorem port_write_loop_checked_stop (cfg : PortConfig) (buf : Int → CChar) (n : Int)
    (fuel : Nat) (p : port) (written : Int)
    (h : ¬ (written < n ∧ p.count < cfg.PORT_BUF_SIZE)) :
    port_write_loop_checked cfg buf n fuel p written = some (p, written) := by
  cases fuel with
  | zero => rfl
  | succ fuel => rw [port_write_loop_checked_succ, if_neg h]

/-- When the guard of the read loop is false at entry no load is made, and the
loop is defined whatever `head` is. -/
theorem port_read_loop_checked_stop (cfg : PortConfig) (n : Int) (fuel : Nat)
    (p : port) (buf : Int → CChar) (read : Int) (h : ¬ (read < n ∧ p.count > 0)) :
    port_read_loop_checked cfg n fuel p buf read = some (p, buf, read) := by
  cases fuel with
  | zero => rfl
  | succ fuel => rw [port_read_loop_checked_succ, if_neg h]

/-- From a `tail` that is an index of the buffer every store of the write loop
is inside the array, and the loop gives what `port_write_loop` gives. -/
theorem port_write_loop_checked_eq (cfg : PortConfig) (buf : Int → CChar) (n : Int)
    (hS : cfg.PORT_BUF_SIZE < 2147483648) :
    ∀ (fuel : Nat) (p : port) (written : Int), 0 ≤ p.tail → p.tail < cfg.PORT_BUF_SIZE →
      port_write_loop_checked cfg buf n fuel p written =
        some (port_write_loop cfg buf n fuel p written) := by
  intro fuel
  induction fuel with
  | zero => intro p written _ _; rfl
  | succ fuel ih =>
    intro p written t0 t1
    rw [port_write_loop_checked_succ, port_write_loop_succ]
    split_ifs with h h2
    · have ht : (write_byte cfg p (buf written)).tail = (p.tail + 1) % cfg.PORT_BUF_SIZE :=
        advance_emod cfg.PORT_BUF_SIZE p.tail hS t0 t1
      exact ih _ _ (by rw [ht]; exact Int.emod_nonneg _ (by omega))
        (by rw [ht]; exact Int.emod_lt_of_pos _ (by omega))
    · exact absurd (And.intro t0 t1) h2
    · rfl

/-- From a `head` that is an index of the buffer every load of the read loop is
inside the array, and the loop gives what `port_read_loop` gives. -/
theorem port_read_loop_checked_eq (cfg : PortConfig) (n : Int)
    (hS : cfg.PORT_BUF_SIZE < 2147483648) :
    ∀ (fuel : Nat) (p : port) (buf : Int → CChar) (read : Int),
      0 ≤ p.head → p.head < cfg.PORT_BUF_SIZE →
      port_read_loop_checked cfg n fuel p buf read =
        some (port_read_loop cfg n fuel p buf read) := by
  intro fuel
  induction fuel with
  | zero => intro p buf read _ _; rfl
  | succ fuel ih =>
    intro p buf read t0 t1
    rw [port_read_loop_checked_succ, port_read_loop_succ]
    split_ifs with h h2
    · have ht : (read_byte cfg p).head = (p.head + 1) % cfg.PORT_BUF_SIZE :=
        advance_emod cfg.PORT_BUF_SIZE p.head hS t0 t1
      exact ih _ _ _ (by rw [ht]; exact Int.emod_nonneg _ (by omega))
        (by rw [ht]; exact Int.emod_lt_of_pos _ (by omega))
    · exact absurd (And.intro t0 t1) h2
    · rfl

theorem port_write_checked_closed (cfg : PortConfig) (ports : Table) (port : Int)
    (buf : Int → CChar) (n : Int) (h : closed_at cfg ports port) :
    port_write_checked cfg ports port buf n = some (ports, -1) := by
  unfold port_write_checked
  rcases h with h | h
  · rw [if_pos h]
  · split_ifs <;> rfl

theorem port_read_checked_closed (cfg : PortConfig) (ports : Table) (port : Int)
    (buf : Int → CChar) (n : Int) (h : closed_at cfg ports port) :
    port_read_checked cfg ports port buf n = some (ports, buf, -1) := by
  unfold port_read_checked
  rcases h with h | h
  · rw [if_pos h]
  · split_ifs <;> rfl

theorem port_write_checked_open (cfg : PortConfig) (ports : Table) (port : Int)
    (buf : Int → CChar) (n : Int) (h : ¬ closed_at cfg ports port) :
    port_write_checked cfg ports port buf n =
      (port_write_loop_checked cfg buf n n.toNat (ports port) 0).map
        (fun r => (Function.update ports port r.1, r.2)) := by
  have hr : ¬ (port < 0 ∨ port ≥ cfg.NPORT) := fun hr => h (Or.inl hr)
  have hf : ¬ ((ports port).free = true) := fun hf => h (Or.inr hf)
  unfold port_write_checked
  rw [if_neg hr, if_neg hf]
  cases port_write_loop_checked cfg buf n n.toNat (ports port) 0 <;> rfl

theorem port_read_checked_open (cfg : PortConfig) (ports : Table) (port : Int)
    (buf : Int → CChar) (n : Int) (h : ¬ closed_at cfg ports port) :
    port_read_checked cfg ports port buf n =
      (port_read_loop_checked cfg n n.toNat (ports port) buf 0).map
        (fun r => (Function.update ports port r.1, r.2.1, r.2.2)) := by
  have hr : ¬ (port < 0 ∨ port ≥ cfg.NPORT) := fun hr => h (Or.inl hr)
  have hf : ¬ ((ports port).free = true) := fun hf => h (Or.inr hf)
  unfold port_read_checked
  rw [if_neg hr, if_neg hf]
  cases port_read_loop_checked cfg n n.toNat (ports port) buf 0 <;> rfl

/-- When `tail` is an index of the buffer in the case where a byte is stored
(the port is in range and open, `n > 0` and the buffer is not full), the call
of `port_write` is defined and gives what `port_write` gives. -/
theorem port_write_checked_eq (cfg : PortConfig) (hS : cfg.PORT_BUF_SIZE < 2147483648)
    (ports : Table) (port : Int) (buf : Int → CChar) (n : Int)
    (h : ¬ closed_at cfg ports port → 0 < n → (ports port).count < cfg.PORT_BUF_SIZE →
      0 ≤ (ports port).tail ∧ (ports port).tail < cfg.PORT_BUF_SIZE) :
    port_write_checked cfg ports port buf n = some (port_write cfg ports port buf n) := by
  by_cases hc : closed_at cfg ports port
  · rw [port_write_checked_closed cfg ports port buf n hc,
      port_write_closed cfg ports port buf n hc]
  · have h0 : 0 ≤ port := by unfold closed_at at hc; omega
    have h1 : port < cfg.NPORT := by unfold closed_at at hc; omega
    have hopen : (ports port).free = false := by
      simpa using fun hf => hc (Or.inr hf)
    rw [port_write_checked_open cfg ports port buf n hc,
      port_write_open cfg ports port buf n h0 h1 hopen]
    by_cases hg : (0 : Int) < n ∧ (ports port).count < cfg.PORT_BUF_SIZE
    · obtain ⟨t0, t1⟩ := h hc hg.1 hg.2
      rw [port_write_loop_checked_eq cfg buf n hS n.toNat (ports port) 0 t0 t1]
      rfl
    · rw [port_write_loop_checked_stop cfg buf n n.toNat (ports port) 0 hg,
        port_write_loop_stop cfg buf n n.toNat (ports port) 0 hg]
      rfl

/-- When `head` is an index of the buffer in the case where a byte is loaded
(the port is in range and open, `n > 0` and the buffer is not empty), the call
of `port_read` is defined and gives what `port_read` gives. -/
theorem port_read_checked_eq (cfg : PortConfig) (hS : cfg.PORT_BUF_SIZE < 2147483648)
    (ports : Table) (port : Int) (buf : Int → CChar) (n : Int)
    (h : ¬ closed_at cfg ports port → 0 < n → 0 < (ports port).count →
      0 ≤ (ports port).head ∧ (ports port).head < cfg.PORT_BUF_SIZE) :
    port_read_checked cfg ports port buf n = some (port_read cfg ports port buf n) := by
  by_cases hc : closed_at cfg ports port
  · rw [port_read_checked_closed cfg ports port buf n hc,
      port_read_closed cfg ports port buf n hc]
  · have h0 : 0 ≤ port := by unfold closed_at at hc; omega
    have h1 : port < cfg.NPORT := by unfold closed_at at hc; omega
    have hopen : (ports port).free = false := by
      simpa using fun hf => hc (Or.inr hf)
    rw [port_read_checked_open cfg ports port buf n hc,
      port_read_open cfg ports port buf n h0 h1 hopen]
    by_cases hg : (0 : Int) < n ∧ (ports port).count > 0
    · obtain ⟨t0, t1⟩ := h hc hg.1 hg.2
      rw [port_read_loop_checked_eq cfg n hS n.toNat (ports port) buf 0 t0 t1]
      rfl
    · rw [port_read_loop_checked_stop cfg n n.toNat (ports port) buf 0 hg,
        port_read_loop_stop cfg n n.toNat (ports port) buf 0 hg]
      rfl

/-- The value `port_write_checked` returns and the record it leaves at the
addressed port, or its being undefined, depend on the table only through that
port. -/
theorem port_write_checked_local (cfg : PortConfig) (ports ports2 : Table) (q : Int)
    (buf : Int → CChar) (n : Int) (h : ports2 q = ports q) :
    (port_write_checked cfg ports2 q buf n).map (fun r => (r.1 q, r.2)) =
      (port_write_checked cfg ports q buf n).map (fun r => (r.1 q, r.2)) := by
  by_cases hc : closed_at cfg ports q
  · have hc2 : closed_at cfg ports2 q := by
      unfold closed_at at hc ⊢
      rw [h]
      exact hc
    rw [port_write_checked_closed cfg ports q buf n hc,
      port_write_checked_closed cfg ports2 q buf n hc2]
    simp [h]
  · have hc2 : ¬ closed_at cfg ports2 q := by
      unfold closed_at at hc ⊢
      rw [h]
      exact hc
    rw [port_write_checked_open cfg ports q buf n hc,
      port_write_checked_open cfg ports2 q buf n hc2, h]
    simp [Option.map_map, Function.comp_def, Function.update_same]

/-- The value `port_read_checked` returns, the destination it fills and the
record it leaves at the addressed port, or its being undefined, depend on the
table only through that port. -/
theorem port_read_checked_local (cfg : PortConfig) (ports ports2 : Table) (q : Int)
    (buf : Int → CChar) (n : Int) (h : ports2 q = ports q) :
    (port_read_checked cfg ports2 q buf n).map (fun r => (r.1 q, r.2)) =
      (port_read_checked cfg ports q buf n).map (fun r => (r.1 q, r.2)) := by
  by_cases hc : closed_at cfg ports q
  · have hc2 : closed_at cfg ports2 q := by
      unfold closed_at at hc ⊢
      rw [h]
      exact hc
    rw [port_read_checked_closed cfg ports q buf n hc,
      port_read_checked_closed cfg ports2 q buf n hc2]
    simp [h]
  · have hc2 : ¬ closed_at cfg ports2 q := by
      unfold closed_at at hc ⊢
      rw [h]
      exact hc
    rw [port_read_checked_open cfg ports q buf n hc,
      port_read_checked_open cfg ports2 q buf n hc2, h]
    simp [Option.map_map, Function.comp_def, Function.update_same]

/-- A call of `port_write` on a port whose positions are indices of its buffer
leaves them indices of the buffer. -/
theorem port_write_positions (cfg : PortConfig) (hS : cfg.PORT_BUF_SIZE < 2147483648)
    (ports : Table) (port : Int) (buf : Int → CChar) (n : Int)
    (hidx : ¬ closed_at cfg ports port → positions_ok cfg (ports port)) :
    ¬ closed_at cfg (port_write cfg ports port buf n).1 port →
      positions_ok cfg ((port_write cfg ports port buf n).1 port) := by
  intro hc2
  have hc : ¬ closed_at cfg ports port := fun hc => by
    apply hc2
    rw [port_write_closed cfg ports port buf n hc]
    exact hc
  obtain ⟨⟨t0, t1⟩, ⟨d0, d1⟩⟩ := hidx hc
  have h0 : 0 ≤ port := by unfold closed_at at hc; omega
  have h1 : port < cfg.NPORT := by unfold closed_at at hc; omega
  have hopen : (ports port).free = false := by simpa using fun hf => hc (Or.inr hf)
  obtain ⟨-, -, -, -, -, w6⟩ := port_write_loop_count cfg buf n n.toNat (ports port) 0 (by simp)
  have wt := port_write_loop_tail cfg buf n hS n.toNat (ports port) 0 t0 t1
  rw [port_write_open cfg ports port buf n h0 h1 hopen]
  simp only [Function.update_same]
  refine ⟨⟨?_, ?_⟩, ⟨?_, ?_⟩⟩
  · rw [wt]; exact Int.emod_nonneg _ (by omega)
  · rw [wt]; exact Int.emod_lt_of_pos _ (by omega)
  · rw [w6]; exact d0
  · rw [w6]; exact d1

/-- A call of `port_read` on a port whose positions are indices of its buffer
leaves them indices of the buffer. -/
theorem port_read_positions (cfg : PortConfig) (hS : cfg.PORT_BUF_SIZE < 2147483648)
    (ports : Table) (port : Int) (buf : Int → CChar) (n : Int)
    (hidx : ¬ closed_at cfg ports port → positions_ok cfg (ports port)) :
    ¬ closed_at cfg (port_read cfg ports port buf n).1 port →
      positions_ok cfg ((port_read cfg ports port buf n).1 port) := by
  intro hc2
  have hc : ¬ closed_at cfg ports port := fun hc => by
    apply hc2
    rw [port_read_closed cfg ports port buf n hc]
    exact hc
  obtain ⟨⟨t0, t1⟩, ⟨d0, d1⟩⟩ := hidx hc
  have h0 : 0 ≤ port := by unfold closed_at at hc; omega
  have h1 : port < cfg.NPORT := by unfold closed_at at hc; omega
  have hopen : (ports port).free = false := by simpa using fun hf => hc (Or.inr hf)
  obtain ⟨-, -, -, -, -, r6, -⟩ :=
    port_read_loop_count cfg n n.toNat (ports port) buf 0 (by simp)
  have rh := port_read_loop_head cfg n hS n.toNat (ports port) buf 0 d0 d1
  rw [port_read_open cfg ports port buf n h0 h1 hopen]
  simp only [Function.update_same]
  refine ⟨⟨?_, ?_⟩, ⟨?_, ?_⟩⟩
  · rw [r6]; exact t0
  · rw [r6]; exact t1
  · rw [rh]; exact Int.emod_nonneg _ (by omega)
  · rw [rh]; exact Int.emod_lt_of_pos _ (by omega)

/-- Traffic on a port whose positions are indices of its buffer never leaves
the buffer: the checked run is defined and is the run. -/
theorem run_checked_traffic (cfg : PortConfig) (hS : cfg.PORT_BUF_SIZE < 2147483648) (p : Int)
    (ops : List Op) :
    ∀ ports : Table, (∀ op ∈ ops, traffic_on p op) →
      (¬ closed_at cfg ports p → positions_ok cfg (ports p)) →
      run_checked cfg ports ops = some (run cfg ports ops) := by
  induction ops with
  | nil => intro ports _ _; rfl
  | cons op ops ih =>
    intro ports hops hidx
    have hop := hops op (List.mem_cons_self _ _)
    have hrest : ∀ o ∈ ops, traffic_on p o := fun o ho => hops o (List.mem_cons_of_mem _ ho)
    cases op with
    | init => exact absurd hop id
    | acquire a b => exact absurd hop id
    | close a => exact absurd hop id
    | write a buf n =>
      have ha : a = p := hop
      subst ha
      have e : step_checked cfg ports (Op.write a buf n) =
          some (step cfg ports (Op.write a buf n)) := by
        simp only [step_checked, step]
        rw [port_write_checked_eq cfg hS ports a buf n (fun hc _ _ => (hidx hc).1)]
        rfl
      have hnext := ih (step cfg ports (Op.write a buf n)) hrest
        (port_write_positions cfg hS ports a buf n hidx)
      simp only [run_checked, e]
      exact hnext
    | read a buf n =>
      have ha : a = p := hop
      subst ha
      have e : step_checked cfg ports (Op.read a buf n) =
          some (step cfg ports (Op.read a buf n)) := by
        simp only [step_checked, step]
        rw [port_read_checked_eq cfg hS ports a buf n (fun hc _ _ => (hidx hc).2)]
        rfl
      have hnext := ih (step cfg ports (Op.read a buf n)) hrest
        (port_read_positions cfg hS ports a buf n hidx)
      simp only [run_checked, e]
      exact hnext

/-- On a table whose ports satisfy the ring-buffer invariant no call leaves a
buffer: the checked step is defined and is the step. -/
theorem step_checked_of_inv (cfg : PortConfig) (hS : cfg.PORT_BUF_SIZE < 2147483648)
    (ports : Table) (op : Op) (h : table_inv cfg ports) :
    step_checked cfg ports op = some (step cfg ports op) := by
  cases op with
  | init => rfl
  | acquire a b => rfl
  | close a => rfl
  | write a buf n =>
    simp only [step_checked, step]
    rw [port_write_checked_eq cfg hS ports a buf n (fun hc _ _ => by
      have hi := h a (by unfold closed_at at hc; omega) (by unfold closed_at at hc; omega)
      exact ⟨hi.2.2.2.2.1, hi.2.2.2.2.2.1⟩)]
    rfl
  | read a buf n =>
    simp only [step_checked, step]
    rw [port_read_checked_eq cfg hS ports a buf n (fun hc _ _ => by
      have hi := h a (by unfold closed_at at hc; omega) (by unfold closed_at at hc; omega)
      exact ⟨hi.2.2.1, hi.2.2.2.1⟩)]
    rfl

/-- From a table whose ports satisfy the ring-buffer invariant, so from the
table `port_init` leaves, no sequence of calls leaves a buffer: the checked
run is defined and is the run. -/
theorem run_checked_of_inv (cfg : PortConfig) (hpos : 0 < cfg.PORT_BUF_SIZE)
    (hS : cfg.PORT_BUF_SIZE < 2147483648) (ops : List Op) :
    ∀ ports : Table, table_inv cfg ports →
      run_checked cfg ports ops = some (run cfg ports ops) := by
  induction ops with
  | nil => intro ports _; rfl
  | cons op ops ih =>
    intro ports h
    simp only [run_checked, step_checked_of_inv cfg hS ports op h]
    exact ih _ (step_table_inv cfg hpos hS ports op h)

/-! ## The claims on calls in any table state -/

/-- C3, as stated, fails: port 3 of the table is in range, not free and has
`0 ≤ count ≤ PORT_BUF_SIZE`, but its `tail` is `INT_MAX`; `port_write` of one
byte stores at `buffer[tail]`, outside the array, so the call has no defined
result and does not return `min (max n 0) (PORT_BUF_SIZE - count)`. -/
theorem C3_stray_tail_counterexample :
    ((0 : Int) ≤ 3 ∧ (3 : Int) < cfg5.NPORT ∧ (stray_tail_table 3).free = false ∧
      0 ≤ (stray_tail_table 3).count ∧ (stray_tail_table 3).count ≤ cfg5.PORT_BUF_SIZE) ∧
    port_write_checked cfg5 stray_tail_table 3 sample_data 1 = none ∧
    ¬ ∃ (t : Table) (r : Int),
      port_write_checked cfg5 stray_tail_table 3 sample_data 1 = some (t, r) ∧
      r = min (max 1 0) (cfg5.PORT_BUF_SIZE - (stray_tail_table 3).count) :=
  ⟨by decide, rfl, fun ⟨_, _, h, _⟩ =>
    Option.noConfusion ((rfl : port_write_checked cfg5 stray_tail_table 3 sample_data 1 =
      none).symm.trans h)⟩

/-- C3, amended. Full-buffer truncation: for a port in range that is not free
and has `0 ≤ count ≤ PORT_BUF_SIZE` (the upper bound is all the proof uses),
whose `tail` is an index of its buffer whenever a byte is to be stored (`n > 0`
and `count < PORT_BUF_SIZE`), and for every `n`, the call of `port_write` is
defined, returns exactly `min (max n 0) (PORT_BUF_SIZE - count)` and increases
`count` by that amount; when `count = PORT_BUF_SIZE` it returns 0 and leaves
the whole table as it was, and when `n` exceeds the remaining space it returns
exactly the remaining space.  The capacity is a C `int`. -/
theorem C3_full_buffer_truncation (cfg : PortConfig) (hS : cfg.PORT_BUF_SIZE < 2147483648)
    (ports : Table) (p : Int) (buf : Int → CChar) (n : Int) (h0 : 0 ≤ p) (h1 : p < cfg.NPORT)
    (hopen : (ports p).free = false) (hc1 : (ports p).count ≤ cfg.PORT_BUF_SIZE)
    (hidx : 0 < n → (ports p).count < cfg.PORT_BUF_SIZE →
      0 ≤ (ports p).tail ∧ (ports p).tail < cfg.PORT_BUF_SIZE) :
    ∃ (t : Table) (r : Int), port_write_checked cfg ports p buf n = some (t, r) ∧
      r = min (max n 0) (cfg.PORT_BUF_SIZE - (ports p).count) ∧
      (t p).count = (ports p).count + r ∧
      ((ports p).count = cfg.PORT_BUF_SIZE → t = ports ∧ r = 0) ∧
      (cfg.PORT_BUF_SIZE - (ports p).count < n → r = cfg.PORT_BUF_SIZE - (ports p).count) := by
  refine ⟨(port_write cfg ports p buf n).1, (port_write cfg ports p buf n).2,
    port_write_checked_eq cfg hS ports p buf n (fun _ => hidx), ?_⟩
  obtain ⟨k1, k2, -⟩ := port_write_loop_count cfg buf n n.toNat (ports p) 0 (by simp)
  rw [port_write_open cfg ports p buf n h0 h1 hopen]
  simp only [Function.update_same]
  refine ⟨by omega, by omega, fun hfull => ?_, fun hlt => by omega⟩
  rw [port_write_loop_stop cfg buf n n.toNat (ports p) 0 (by omega), Function.update_eq_self]
  exact ⟨rfl, rfl⟩

/-- Witness of C3: port 3 of the sample table holds two of five bytes and its
`tail` is 1; a write of five bytes is cut to the remaining three. -/
theorem C3_full_buffer_truncation_witness :
    cfg5.PORT_BUF_SIZE < 2147483648 ∧ (0 : Int) ≤ 3 ∧ (3 : Int) < cfg5.NPORT ∧
    (sample_table 3).free = false ∧ (sample_table 3).count ≤ cfg5.PORT_BUF_SIZE ∧
    ((0 : Int) < 5 → (sample_table 3).count < cfg5.PORT_BUF_SIZE →
      0 ≤ (sample_table 3).tail ∧ (sample_table 3).tail < cfg5.PORT_BUF_SIZE) ∧
    ∃ (t : Table) (r : Int), port_write_checked cfg5 sample_table 3 sample_data 5 = some (t, r) ∧
      r = 3 :=
  ⟨by decide, by decide, by decide, by decide, by decide, by decide,
    match C3_full_buffer_truncation cfg5 (by decide) sample_table 3 sample_data 5 (by decide)
      (by decide) (by decide) (by decide) (by decide) with
    | ⟨t, r, h, hr, _⟩ => ⟨t, r, h, hr.trans (by decide)⟩⟩

/-- C4, as stated, fails: port 3 of the table is in range, not free and has
`0 ≤ count ≤ PORT_BUF_SIZE` (it holds one byte), but its `head` is `INT_MAX`;
`port_read` of one byte loads `buffer[head]`, outside the array, so the call
has no defined result and does not return `min (max n 0) count`. -/
theorem C4_stray_head_counterexample :
    ((0 : Int) ≤ 3 ∧ (3 : Int) < cfg5.NPORT ∧ (stray_head_table 3).free = false ∧
      0 ≤ (stray_head_table 3).count ∧ (stray_head_table 3).count ≤ cfg5.PORT_BUF_SIZE) ∧
    port_read_checked cfg5 stray_head_table 3 (fun _ => 0) 1 = none ∧
    ¬ ∃ (t : Table) (d : Int → CChar) (r : Int),
      port_read_checked cfg5 stray_head_table 3 (fun _ => 0) 1 = some (t, d, r) ∧
      r = min (max 1 0) (stray_head_table 3).count :=
  ⟨by decide, rfl, fun ⟨_, _, _, h, _⟩ =>
    Option.noConfusion ((rfl : port_read_checked cfg5 stray_head_table 3 (fun _ => 0) 1 =
      none).symm.trans h)⟩

/-- C4, amended. Empty-buffer truncation: for a port in range that is not free
and has `0 ≤ count ≤ PORT_BUF_SIZE` (the lower bound is all the proof uses),
whose `head` is an index of its buffer whenever a byte is to be read (`n > 0`
and `count > 0`), and for every `n`, the call of `port_read` is defined,
returns exactly `min (max n 0) count` and decreases `count` by that amount;
reading from a port with `count = 0` returns 0, not -1, and leaves the whole
table and the destination as they were.  The capacity is a C `int`. -/
theorem C4_empty_buffer_truncation (cfg : PortConfig) (hS : cfg.PORT_BUF_SIZE < 2147483648)
    (ports : Table) (p : Int) (buf : Int → CChar) (n : Int) (h0 : 0 ≤ p) (h1 : p < cfg.NPORT)
    (hopen : (ports p).free = false) (hc0 : 0 ≤ (ports p).count)
    (hidx : 0 < n → 0 < (ports p).count →
      0 ≤ (ports p).head ∧ (ports p).head < cfg.PORT_BUF_SIZE) :
    ∃ (t : Table) (d : Int → CChar) (r : Int),
      port_read_checked cfg ports p buf n = some (t, d, r) ∧
      r = min (max n 0) (ports p).count ∧
      (t p).count = (ports p).count - r ∧
      ((ports p).count = 0 → t = ports ∧ d = buf ∧ r = 0) := by
  refine ⟨(port_read cfg ports p buf n).1, (port_read cfg ports p buf n).2.1,
    (port_read cfg ports p buf n).2.2,
    port_read_checked_eq cfg hS ports p buf n (fun _ => hidx), ?_⟩
  obtain ⟨k1, k2, -⟩ := port_read_loop_count cfg n n.toNat (ports p) buf 0 (by simp)
  rw [port_read_open cfg ports p buf n h0 h1 hopen]
  simp only [Function.update_same]
  refine ⟨by omega, by omega, fun hempty => ?_⟩
  rw [port_read_loop_stop cfg n n.toNat (ports p) buf 0 (by omega), Function.update_eq_self]
  exact ⟨rfl, rfl, rfl⟩

/-- Witness of C4: port 3 of the sample table holds two bytes and its `head` is
4; a read of four bytes is cut to two. -/
theorem C4_empty_buffer_truncation_witness :
    cfg5.PORT_BUF_SIZE < 2147483648 ∧ (0 : Int) ≤ 3 ∧ (3 : Int) < cfg5.NPORT ∧
    (sample_table 3).free = false ∧ 0 ≤ (sample_table 3).count ∧
    ((0 : Int) < 4 → 0 < (sample_table 3).count →
      0 ≤ (sample_table 3).head ∧ (sample_table 3).head < cfg5.PORT_BUF_SIZE) ∧
    ∃ (t : Table) (d : Int → CChar) (r : Int),
      port_read_checked cfg5 sample_table 3 (fun _ => 0) 4 = some (t, d, r) ∧ r = 2 :=
  ⟨by decide, by decide, by decide, by decide, by decide, by decide,
    match C4_empty_buffer_truncation cfg5 (by decide) sample_table 3 (fun _ => 0) 4 (by decide)
      (by decide) (by decide) (by decide) (by decide) with
    | ⟨t, d, r, h, hr, _⟩ => ⟨t, d, r, h, hr.trans (by decide)⟩⟩

/-- C20, as stated, fails: port 2 of the table is in range and open, but its
`tail` is 48, past the five cells of its buffer; `port_write (2, ...)` of one
byte stores at `buffer[48]`, outside the array of port 2, so the call has no
defined result and nothing says that the other ports are left as they
were. -/
theorem C20_crossing_store_counterexample :
    ((0 : Int) ≤ 2 ∧ (2 : Int) < cfg5.NPORT ∧ (crossing_table 2).free = false) ∧
    port_write_checked cfg5 crossing_table 2 (fun _ => 77) 1 = none ∧
    ¬ ∃ (t : Table) (r : Int),
      port_write_checked cfg5 crossing_table 2 (fun _ => 77) 1 = some (t, r) ∧
      ∀ q : Int, q ≠ 2 → t q = crossing_table q :=
  ⟨by decide, rfl, fun ⟨_, _, h, _⟩ =>
    Option.noConfusion ((rfl : port_write_checked cfg5 crossing_table 2 (fun _ => 77) 1 =
      none).symm.trans h)⟩

/-- C20, amended. Port isolation: in every table state in which `head` and
`tail` of port `p` are indices of its buffer (when `p` is in range and not
free), and for all arguments, the calls `port_write (p, ...)` and
`port_read (p, ...)` are defined, leave every port `q ≠ p` as it was in all
its fields (the buffer included) and leave the `free` flag, the owner and the
type of `p` itself as they were; so any traffic on `p` is defined, and after
it a later `port_write`, `port_read`, `port_acquire` or `port_close` on a port
`q ≠ p` does what it does without the traffic: it returns the same value and
leaves `q` in the same state (or is undefined in both cases).  The capacity is
a C `int`. -/
theorem C20_port_isolation (cfg : PortConfig) (hS : cfg.PORT_BUF_SIZE < 2147483648)
    (ports : Table) (p : Int) (buf : Int → CChar) (n : Int)
    (hidx : ¬ closed_at cfg ports p → positions_ok cfg (ports p)) :
    (∃ (t : Table) (r : Int), port_write_checked cfg ports p buf n = some (t, r) ∧
      (∀ q : Int, q ≠ p → t q = ports q) ∧
      (t p).free = (ports p).free ∧ (t p).owner = (ports p).owner ∧
      (t p).type = (ports p).type) ∧
    (∃ (t : Table) (d : Int → CChar) (r : Int),
      port_read_checked cfg ports p buf n = some (t, d, r) ∧
      (∀ q : Int, q ≠ p → t q = ports q) ∧
      (t p).free = (ports p).free ∧ (t p).owner = (ports p).owner ∧
      (t p).type = (ports p).type) ∧
    (∀ ops : List Op, (∀ op ∈ ops, traffic_on p op) →
      ∃ t : Table, run_checked cfg ports ops = some t ∧
        (∀ q : Int, q ≠ p → t q = ports q) ∧
        ∀ q : Int, q ≠ p → ∀ (buf2 : Int → CChar) (n2 : Int) (o : Int),
          (port_write_checked cfg t q buf2 n2).map (fun r => (r.1 q, r.2)) =
            (port_write_checked cfg ports q buf2 n2).map (fun r => (r.1 q, r.2)) ∧
          (port_read_checked cfg t q buf2 n2).map (fun r => (r.1 q, r.2)) =
            (port_read_checked cfg ports q buf2 n2).map (fun r => (r.1 q, r.2)) ∧
          (port_acquire cfg t q o).2 = (port_acquire cfg ports q o).2 ∧
          port_close cfg t q q = port_close cfg ports q q) := by
  refine ⟨⟨(port_write cfg ports p buf n).1, (port_write cfg ports p buf n).2,
      port_write_checked_eq cfg hS ports p buf n (fun hc _ _ => (hidx hc).1),
      fun q hq => port_write_other cfg ports p buf n q hq,
      port_write_fields cfg ports p buf n p⟩,
    ⟨(port_read cfg ports p buf n).1, (port_read cfg ports p buf n).2.1,
      (port_read cfg ports p buf n).2.2,
      port_read_checked_eq cfg hS ports p buf n (fun hc _ _ => (hidx hc).2),
      fun q hq => port_read_other cfg ports p buf n q hq,
      port_read_fields cfg ports p buf n p⟩,
    fun ops hops => ?_⟩
  obtain ⟨t1, t2⟩ := run_traffic cfg p ops ports hops
  refine ⟨run cfg ports ops, run_checked_traffic cfg hS p ops ports hops hidx, t1,
    fun q hq buf2 n2 o => ?_⟩
  exact ⟨port_write_checked_local cfg ports _ q buf2 n2 (t1 q hq),
    port_read_checked_local cfg ports _ q buf2 n2 (t1 q hq),
    port_acquire_congr cfg ports _ q o (fun j => ⟨(t2 j).1, (t2 j).2.2⟩),
    port_close_local cfg ports _ q (t1 q hq)⟩

/-- Witness of C20: port 3 of the sample table is open with `head = 4` and
`tail = 1`; a write of five bytes on it is defined and leaves the other ports
as they were. -/
theorem C20_port_isolation_witness :
    cfg5.PORT_BUF_SIZE < 2147483648 ∧
    (¬ closed_at cfg5 sample_table 3 → positions_ok cfg5 (sample_table 3)) ∧
    ∃ (t : Table) (r : Int), port_write_checked cfg5 sample_table 3 sample_data 5 = some (t, r) ∧
      ∀ q : Int, q ≠ 3 → t q = sample_table q :=
  ⟨by decide, by decide,
    match (C20_port_isolation cfg5 (by decide) sample_table 3 sample_data 5 (by decide)).1 with
    | ⟨t, r, h, hq, _⟩ => ⟨t, r, h, hq⟩⟩

end Hawx
